import Mathlib

/-!
Verification development for the xc3_lib / xc3_model binary asset pipeline.

Shallow embedding conventions:
* Bytes are naturals; buffers are `List Nat`. Multi-byte scalars are
  assembled little-endian exactly as the binrw readers do.
* 32-bit float attribute values (positions, texcoords) are carried as their
  IEEE bit patterns (`Nat` below `2^32`), because the decoder only moves
  them between byte form and value form without arithmetic. Where the
  source performs float arithmetic (normalized decode `v/255` etc., and the
  legacy skin-weight extension `1.0 - sum`), values are exact rationals;
  the IEEE bit pattern is interpreted by `val32`.
* Fallible reads return `Option`; Rust panics (`unwrap`, out-of-bounds
  indexing) are modelled as `none`.
-/

namespace Xc3

abbrev Byte := Nat

/-- Byte at index `i` of a buffer, normalized to `0..255` (out-of-range
reads are guarded by the callers' bounds checks). -/
def byteAt (buf : List Byte) (i : Nat) : Nat := buf.getD i 0 % 256

def u16le (b0 b1 : Nat) : Nat := b0 + 256 * b1

def u32le (b0 b1 b2 b3 : Nat) : Nat := b0 + 256 * b1 + 65536 * b2 + 16777216 * b3

/-- Little-endian 16-bit value at offset `o`. -/
def u16At (buf : List Byte) (o : Nat) : Nat := u16le (byteAt buf o) (byteAt buf (o + 1))

/-- Little-endian 32-bit value at offset `o`. -/
def u32At (buf : List Byte) (o : Nat) : Nat :=
  u32le (byteAt buf o) (byteAt buf (o + 1)) (byteAt buf (o + 2)) (byteAt buf (o + 3))

/-- Reinterpret a byte as a signed 8-bit integer (Rust `i8`). -/
def toI8 (b : Nat) : Int := if b % 256 < 128 then (b % 256 : Int) else (b % 256 : Int) - 256

/-- `v as f32 / 127.0` for a stored signed byte (source `read_snorm8x4`). -/
def snorm8 (b : Nat) : ℚ := (toI8 b : ℚ) / 127

/-- `v as f32 / 255.0` for a stored unsigned byte (source `read_unorm8x4`). -/
def unorm8 (b : Nat) : ℚ := ((b % 256 : Nat) : ℚ) / 255

/-- `v as f32 / 65535.0` for a stored little-endian u16 (source `read_unorm16x4`). -/
def unorm16 (v : Nat) : ℚ := ((v % 65536 : Nat) : ℚ) / 65535

/-- `u as f32 / 255.0 * 2.0 - 1.0`, the re-biased morph normal/tangent decode. -/
def unorm8Rebias (b : Nat) : ℚ := unorm8 b * 2 - 1

/-- Value of an IEEE binary32 bit pattern as an exact rational. Patterns
with exponent 255 (Inf/NaN in hardware) are modelled by extending the
normal-number formula; no claim evaluates such a pattern. -/
def val32 (n0 : Nat) : ℚ :=
  let n : Nat := n0 % 2 ^ 32
  let s : Nat := n / 2 ^ 31
  let e : Nat := n / 2 ^ 23 % 256
  let m : Nat := n % 2 ^ 23
  let mag : ℚ :=
    if e = 0 then (m : ℚ) * (2 : ℚ) ^ (-(149 : ℤ))
    else ((2 ^ 23 + m : Nat) : ℚ) * (2 : ℚ) ^ ((e : ℤ) - 150)
  if s = 1 then -mag else mag

/-- Two f32 bit patterns (source `Vec2` carried in raw form). -/
abbrev Vec2B := Nat × Nat

/-- Three f32 bit patterns (source `Vec3` carried in raw form). -/
abbrev Vec3B := Nat × Nat × Nat

/-- Four exact-rational components (source `Vec4` from a normalized decode). -/
abbrev Vec4Q := ℚ × ℚ × ℚ × ℚ

/-- Vertex attribute type codes. Modelled from the exhaustive match of
`read_attribute` in `xc3_model/src/vertex.rs` (the declaring enum
`xc3_lib::vertex::DataType` is not under `src/`). -/
inductive DataType where
  | Position | SkinWeights2 | BoneIndices2 | WeightIndex | WeightIndex2
  | TexCoord0 | TexCoord1 | TexCoord2 | TexCoord3 | TexCoord4
  | TexCoord5 | TexCoord6 | TexCoord7 | TexCoord8
  | Blend | Unk15 | Unk16 | VertexColor | Unk18
  | Unk24 | Unk25 | Unk26 | Normal | Tangent | Unk30 | Unk31
  | Normal2 | Unk33 | Normal3 | VertexColor3
  | Position2 | Normal4 | OldPosition | Tangent2
  | SkinWeights | BoneIndices | Flow
  deriving DecidableEq, Repr

/-- Modelled from the spec: `xc3_lib::vertex::VertexAttribute` is a
(type code, size in bytes) pair; the size is a stored field of the
descriptor. -/
structure VertexAttribute where
  data_type : DataType
  data_size : Nat
  deriving DecidableEq, Repr

/-- See `AttributeData` in `xc3_model/src/vertex.rs`. -/
inductive AttributeData where
  | Position (values : List Vec3B)
  | Normal (values : List Vec4Q)
  | Tangent (values : List Vec4Q)
  | TexCoord0 (values : List Vec2B)
  | TexCoord1 (values : List Vec2B)
  | TexCoord2 (values : List Vec2B)
  | TexCoord3 (values : List Vec2B)
  | TexCoord4 (values : List Vec2B)
  | TexCoord5 (values : List Vec2B)
  | TexCoord6 (values : List Vec2B)
  | TexCoord7 (values : List Vec2B)
  | TexCoord8 (values : List Vec2B)
  | VertexColor (values : List Vec4Q)
  | Blend (values : List Vec4Q)
  | WeightIndex (values : List (Nat × Nat))
  | Position2 (values : List Vec3B)
  | Normal4 (values : List Vec4Q)
  | OldPosition (values : List Vec3B)
  | Tangent2 (values : List Vec4Q)
  | SkinWeights (values : List Vec4Q)
  | SkinWeights2 (values : List Vec3B)
  | BoneIndices (values : List (Nat × Nat × Nat × Nat))
  | BoneIndices2 (values : List (Nat × Nat × Nat × Nat))
  deriving DecidableEq, Repr

/-! Per-element codecs (source `read_u16x2`, `read_u8x4`, `read_f32x2`,
`read_f32x3`, `read_unorm8x4`, `read_snorm8x4`, `read_unorm16x4`). Each
reads at an absolute offset and fails iff the buffer is too short, as the
cursor-based Rust readers do. -/

def readU16x2 (buf : List Byte) (o : Nat) : Option (Nat × Nat) :=
  if o + 4 ≤ buf.length then some (u16At buf o, u16At buf (o + 2)) else none

def readU8x4 (buf : List Byte) (o : Nat) : Option (Nat × Nat × Nat × Nat) :=
  if o + 4 ≤ buf.length then
    some (byteAt buf o, byteAt buf (o + 1), byteAt buf (o + 2), byteAt buf (o + 3))
  else none

def readF32x2 (buf : List Byte) (o : Nat) : Option Vec2B :=
  if o + 8 ≤ buf.length then some (u32At buf o, u32At buf (o + 4)) else none

def readF32x3 (buf : List Byte) (o : Nat) : Option Vec3B :=
  if o + 12 ≤ buf.length then some (u32At buf o, u32At buf (o + 4), u32At buf (o + 8)) else none

def readUnorm8x4 (buf : List Byte) (o : Nat) : Option Vec4Q :=
  if o + 4 ≤ buf.length then
    some (unorm8 (byteAt buf o), unorm8 (byteAt buf (o + 1)),
      unorm8 (byteAt buf (o + 2)), unorm8 (byteAt buf (o + 3)))
  else none

def readSnorm8x4 (buf : List Byte) (o : Nat) : Option Vec4Q :=
  if o + 4 ≤ buf.length then
    some (snorm8 (byteAt buf o), snorm8 (byteAt buf (o + 1)),
      snorm8 (byteAt buf (o + 2)), snorm8 (byteAt buf (o + 3)))
  else none

def readUnorm16x4 (buf : List Byte) (o : Nat) : Option Vec4Q :=
  if o + 8 ≤ buf.length then
    some (unorm16 (u16At buf o), unorm16 (u16At buf (o + 2)),
      unorm16 (u16At buf (o + 4)), unorm16 (u16At buf (o + 6)))
  else none

/-- Source `read_data`: for `i` in `0..count`, seek to
`offset + i*vertex_size + relative_offset` and read one element,
failing if any element read fails. `readDataGo` is the loop with `i`
counting up and `n` elements remaining. -/
def readDataGo (item : List Byte → Nat → Option α) (buf : List Byte)
    (base size rel : Nat) : Nat → Nat → Option (List α)
  | _, 0 => some []
  | i, n + 1 => do
    let v ← item buf (base + i * size + rel)
    let rest ← readDataGo item buf base size rel (i + 1) n
    some (v :: rest)

def readData (base count size rel : Nat) (buf : List Byte)
    (item : List Byte → Nat → Option α) : Option (List α) :=
  readDataGo item buf base size rel 0 count

/-- Source `read_attribute`: dispatch one attribute descriptor to its
codec. Reserved/unknown codes yield `none`, as do failed reads
(the source collapses both via `.ok()?`). -/
def readAttribute (a : VertexAttribute) (dataOffset count size rel : Nat)
    (buf : List Byte) : Option AttributeData :=
  match a.data_type with
  | .Position => (readData dataOffset count size rel buf readF32x3).map .Position
  | .SkinWeights2 => (readData dataOffset count size rel buf readF32x3).map .SkinWeights2
  | .BoneIndices2 => (readData dataOffset count size rel buf readU8x4).map .BoneIndices2
  | .WeightIndex => (readData dataOffset count size rel buf readU16x2).map .WeightIndex
  | .WeightIndex2 => none
  | .TexCoord0 => (readData dataOffset count size rel buf readF32x2).map .TexCoord0
  | .TexCoord1 => (readData dataOffset count size rel buf readF32x2).map .TexCoord1
  | .TexCoord2 => (readData dataOffset count size rel buf readF32x2).map .TexCoord2
  | .TexCoord3 => (readData dataOffset count size rel buf readF32x2).map .TexCoord3
  | .TexCoord4 => (readData dataOffset count size rel buf readF32x2).map .TexCoord4
  | .TexCoord5 => (readData dataOffset count size rel buf readF32x2).map .TexCoord5
  | .TexCoord6 => (readData dataOffset count size rel buf readF32x2).map .TexCoord6
  | .TexCoord7 => (readData dataOffset count size rel buf readF32x2).map .TexCoord7
  | .TexCoord8 => (readData dataOffset count size rel buf readF32x2).map .TexCoord8
  | .Blend => (readData dataOffset count size rel buf readUnorm8x4).map .Blend
  | .Unk15 => none
  | .Unk16 => none
  | .VertexColor => (readData dataOffset count size rel buf readUnorm8x4).map .VertexColor
  | .Unk18 => none
  | .Unk24 => none
  | .Unk25 => none
  | .Unk26 => none
  | .Normal => (readData dataOffset count size rel buf readSnorm8x4).map .Normal
  | .Tangent => (readData dataOffset count size rel buf readSnorm8x4).map .Tangent
  | .Unk30 => none
  | .Unk31 => none
  | .Normal2 => (readData dataOffset count size rel buf readSnorm8x4).map .Normal
  | .Unk33 => none
  | .Normal3 => none
  | .VertexColor3 => none
  | .Position2 => (readData dataOffset count size rel buf readF32x3).map .Position2
  | .Normal4 => (readData dataOffset count size rel buf readUnorm8x4).map .Normal4
  | .OldPosition => (readData dataOffset count size rel buf readF32x3).map .OldPosition
  | .Tangent2 => (readData dataOffset count size rel buf readUnorm8x4).map .Tangent2
  | .SkinWeights => (readData dataOffset count size rel buf readUnorm16x4).map .SkinWeights
  | .BoneIndices => (readData dataOffset count size rel buf readU8x4).map .BoneIndices
  | .Flow => none

/-- Source `read_vertex_attributes`: fold over the descriptor list with a
running relative offset, keeping only successfully decoded attributes
(`filter_map`) while always advancing the offset by `data_size`. -/
def readVertexAttributesAux (dataOffset count size : Nat) (buf : List Byte) :
    Nat → List VertexAttribute → List AttributeData
  | _, [] => []
  | rel, a :: rest =>
    match readAttribute a dataOffset count size rel buf with
    | some d => d :: readVertexAttributesAux dataOffset count size buf (rel + a.data_size) rest
    | none => readVertexAttributesAux dataOffset count size buf (rel + a.data_size) rest

def readVertexAttributes (dataOffset count size : Nat)
    (attrs : List VertexAttribute) (buf : List Byte) : List AttributeData :=
  readVertexAttributesAux dataOffset count size buf 0 attrs

/-- Sum of the declared byte sizes of a descriptor list: the relative
offset accumulated by `read_vertex_attributes` across those attributes. -/
def sizeSum (attrs : List VertexAttribute) : Nat := (attrs.map (·.data_size)).sum

theorem readDataGo_some {α : Type} {item : List Byte → Nat → Option α}
    {buf : List Byte} {base size rel : Nat} :
    ∀ {n i : Nat} {vs : List α}, readDataGo item buf base size rel i n = some vs →
      vs.length = n ∧
        ∀ k (h : k < vs.length), item buf (base + (i + k) * size + rel) = some (vs.get ⟨k, h⟩) := by
  intro n
  induction n with
  | zero =>
    intro i vs h
    simp [readDataGo] at h
    subst h
    simp
  | succ m ih =>
    intro i vs h
    simp only [readDataGo, Option.bind_eq_bind, Option.bind_eq_some] at h
    obtain ⟨v, hv, rest, hrest, heq⟩ := h
    obtain ⟨hlen, hvals⟩ := ih hrest
    injection heq with heq
    subst heq
    refine ⟨by simp [hlen], ?_⟩
    intro k hk
    cases k with
    | zero => simpa using hv
    | succ j =>
      have hj : j < rest.length := by simpa using hk
      have := hvals j hj
      have harith : i + (j + 1) = i + 1 + j := by omega
      rw [harith]
      simpa using this

theorem readData_some {α : Type} {item : List Byte → Nat → Option α}
    {buf : List Byte} {base count size rel : Nat} {vs : List α}
    (h : readData base count size rel buf item = some vs) :
    vs.length = count ∧
      ∀ k (hk : k < vs.length), item buf (base + k * size + rel) = some (vs.get ⟨k, hk⟩) := by
  obtain ⟨hlen, hvals⟩ := readDataGo_some h
  exact ⟨hlen, fun k hk => by simpa using hvals k hk⟩

/-- `read_vertex_attributes` splits over list append: the second part is
decoded at the relative offset accumulated over the first part. -/
theorem readVertexAttributesAux_append (dataOffset count size : Nat) (buf : List Byte) :
    ∀ (pre post : List VertexAttribute) (rel : Nat),
      readVertexAttributesAux dataOffset count size buf rel (pre ++ post) =
        readVertexAttributesAux dataOffset count size buf rel pre ++
          readVertexAttributesAux dataOffset count size buf (rel + sizeSum pre) post := by
  intro pre
  induction pre with
  | nil => intro post rel; simp [readVertexAttributesAux, sizeSum]
  | cons a rest ih =>
    intro post rel
    have harith : rel + a.data_size + sizeSum rest = rel + sizeSum (a :: rest) := by
      simp [sizeSum]; ring
    cases h : readAttribute a dataOffset count size rel buf with
    | none =>
      simp only [List.cons_append, readVertexAttributesAux, h, List.append_eq]
      rw [ih, harith]
    | some d =>
      simp only [List.cons_append, readVertexAttributesAux, h, List.append_eq]
      rw [ih, harith]

/-- The four snorm components a successful `readSnorm8x4` yields. -/
def snormTuple (buf : List Byte) (o : Nat) : Vec4Q :=
  (snorm8 (byteAt buf o), snorm8 (byteAt buf (o + 1)),
    snorm8 (byteAt buf (o + 2)), snorm8 (byteAt buf (o + 3)))

/-- The four unorm components a successful `readUnorm8x4` yields. -/
def unormTuple (buf : List Byte) (o : Nat) : Vec4Q :=
  (unorm8 (byteAt buf o), unorm8 (byteAt buf (o + 1)),
    unorm8 (byteAt buf (o + 2)), unorm8 (byteAt buf (o + 3)))

/-- The four u16 unorm components a successful `readUnorm16x4` yields. -/
def unorm16Tuple (buf : List Byte) (o : Nat) : Vec4Q :=
  (unorm16 (u16At buf o), unorm16 (u16At buf (o + 2)),
    unorm16 (u16At buf (o + 4)), unorm16 (u16At buf (o + 6)))

theorem readSnorm8x4_some {buf : List Byte} {o : Nat} {x : Vec4Q}
    (h : readSnorm8x4 buf o = some x) : x = snormTuple buf o := by
  unfold readSnorm8x4 at h
  split at h
  · injection h with h; exact h.symm
  · cases h

theorem readUnorm8x4_some {buf : List Byte} {o : Nat} {x : Vec4Q}
    (h : readUnorm8x4 buf o = some x) : x = unormTuple buf o := by
  unfold readUnorm8x4 at h
  split at h
  · injection h with h; exact h.symm
  · cases h

theorem readUnorm16x4_some {buf : List Byte} {o : Nat} {x : Vec4Q}
    (h : readUnorm16x4 buf o = some x) : x = unorm16Tuple buf o := by
  unfold readUnorm16x4 at h
  split at h
  · injection h with h; exact h.symm
  · cases h

theorem mapped_readData_vals {α : Type} {item : List Byte → Nat → Option α}
    {mk : List α → AttributeData} (hinj : Function.Injective mk)
    {dOff cnt size rel : Nat} {buf : List Byte} {vs : List α}
    (h : (readData dOff cnt size rel buf item).map mk = some (mk vs)) :
    vs.length = cnt ∧
      ∀ k (hk : k < vs.length), item buf (dOff + k * size + rel) = some (vs.get ⟨k, hk⟩) := by
  rcases Option.map_eq_some'.mp h with ⟨ws, hws, hmk⟩
  obtain rfl := hinj hmk
  exact readData_some hws

/-- Reserved/unknown attribute type codes: the arms of `read_attribute`
returning `None`. -/
def unsupportedCodes : List DataType :=
  [.WeightIndex2, .Unk15, .Unk16, .Unk18, .Unk24, .Unk25, .Unk26,
    .Unk30, .Unk31, .Unk33, .Normal3, .VertexColor3, .Flow]

theorem readAttribute_unsupported (a : VertexAttribute)
    (h : a.data_type ∈ unsupportedCodes) (dOff cnt size rel : Nat) (buf : List Byte) :
    readAttribute a dOff cnt size rel buf = none := by
  obtain ⟨dt, sz⟩ := a
  cases dt <;> first | rfl | simp [unsupportedCodes] at h

/-- C4 (amended). Decoding a `Normal` or `Tangent` attribute — and also a
`Normal2` attribute, which the spec's table misassigns to the unsigned
codec — maps each stored signed byte `v` to `v/127`; decoding a
`Tangent2`, `Normal4`, `VertexColor`, or `Blend` attribute maps each
stored unsigned byte `v` to `v/255`; decoding a `SkinWeights` attribute
maps each stored little-endian u16 `v` to `v/65535`. -/
theorem attribute_codec_normalization
    (buf : List Byte) (dOff cnt size rel sN sT sN2 sT2 sN4 sVC sB sSW : Nat)
    (nvs tvs n2vs t2vs n4vs vcvs bvs swvs : List Vec4Q)
    (hN : readAttribute ⟨.Normal, sN⟩ dOff cnt size rel buf = some (.Normal nvs))
    (hT : readAttribute ⟨.Tangent, sT⟩ dOff cnt size rel buf = some (.Tangent tvs))
    (hN2 : readAttribute ⟨.Normal2, sN2⟩ dOff cnt size rel buf = some (.Normal n2vs))
    (hT2 : readAttribute ⟨.Tangent2, sT2⟩ dOff cnt size rel buf = some (.Tangent2 t2vs))
    (hN4 : readAttribute ⟨.Normal4, sN4⟩ dOff cnt size rel buf = some (.Normal4 n4vs))
    (hVC : readAttribute ⟨.VertexColor, sVC⟩ dOff cnt size rel buf = some (.VertexColor vcvs))
    (hB : readAttribute ⟨.Blend, sB⟩ dOff cnt size rel buf = some (.Blend bvs))
    (hSW : readAttribute ⟨.SkinWeights, sSW⟩ dOff cnt size rel buf = some (.SkinWeights swvs)) :
    (∀ i (h : i < nvs.length), nvs.get ⟨i, h⟩ = snormTuple buf (dOff + i * size + rel)) ∧
    (∀ i (h : i < tvs.length), tvs.get ⟨i, h⟩ = snormTuple buf (dOff + i * size + rel)) ∧
    (∀ i (h : i < n2vs.length), n2vs.get ⟨i, h⟩ = snormTuple buf (dOff + i * size + rel)) ∧
    (∀ i (h : i < t2vs.length), t2vs.get ⟨i, h⟩ = unormTuple buf (dOff + i * size + rel)) ∧
    (∀ i (h : i < n4vs.length), n4vs.get ⟨i, h⟩ = unormTuple buf (dOff + i * size + rel)) ∧
    (∀ i (h : i < vcvs.length), vcvs.get ⟨i, h⟩ = unormTuple buf (dOff + i * size + rel)) ∧
    (∀ i (h : i < bvs.length), bvs.get ⟨i, h⟩ = unormTuple buf (dOff + i * size + rel)) ∧
    (∀ i (h : i < swvs.length), swvs.get ⟨i, h⟩ = unorm16Tuple buf (dOff + i * size + rel)) := by
  have injN : Function.Injective AttributeData.Normal := fun a b h => by injection h
  have injT : Function.Injective AttributeData.Tangent := fun a b h => by injection h
  have injT2 : Function.Injective AttributeData.Tangent2 := fun a b h => by injection h
  have injN4 : Function.Injective AttributeData.Normal4 := fun a b h => by injection h
  have injVC : Function.Injective AttributeData.VertexColor := fun a b h => by injection h
  have injB : Function.Injective AttributeData.Blend := fun a b h => by injection h
  have injSW : Function.Injective AttributeData.SkinWeights := fun a b h => by injection h
  refine ⟨fun i h => readSnorm8x4_some ((mapped_readData_vals injN hN).2 i h),
    fun i h => readSnorm8x4_some ((mapped_readData_vals injT hT).2 i h),
    fun i h => readSnorm8x4_some ((mapped_readData_vals injN hN2).2 i h),
    fun i h => readUnorm8x4_some ((mapped_readData_vals injT2 hT2).2 i h),
    fun i h => readUnorm8x4_some ((mapped_readData_vals injN4 hN4).2 i h),
    fun i h => readUnorm8x4_some ((mapped_readData_vals injVC hVC).2 i h),
    fun i h => readUnorm8x4_some ((mapped_readData_vals injB hB).2 i h),
    fun i h => readUnorm16x4_some ((mapped_readData_vals injSW hSW).2 i h)⟩

/-- C4 counterexample. The claim as stated says a `Normal2` attribute
decodes each stored unsigned byte `v` to `v/255`, so byte 255 would decode
to `255/255 = 1`; the source's `read_attribute` routes `Normal2` through
`read_snorm8x4`, so byte 255 decodes as the signed byte `-1` to `-1/127`. -/
theorem attribute_codec_normal2_counterexample :
    readAttribute ⟨DataType.Normal2, 4⟩ 0 1 4 0 [255, 0, 0, 0] =
      some (.Normal [(-1 / 127, 0, 0, 0)]) ∧ ((-1 : ℚ) / 127) ≠ 255 / 255 := by
  constructor
  · norm_num [readAttribute, readData, readDataGo, readSnorm8x4, snorm8, toI8, byteAt]
  · norm_num

theorem attribute_codec_normalization_witness :
    (readAttribute ⟨DataType.Normal, 4⟩ 0 1 8 0 [129, 0, 0, 0, 0, 0, 0, 0] =
      some (.Normal [(-1, 0, 0, 0)])) ∧
    (∀ i (h : i < ([((-1 : ℚ), (0 : ℚ), (0 : ℚ), (0 : ℚ))] : List Vec4Q).length),
      ([((-1 : ℚ), (0 : ℚ), (0 : ℚ), (0 : ℚ))] : List Vec4Q).get ⟨i, h⟩ =
        snormTuple [129, 0, 0, 0, 0, 0, 0, 0] (0 + i * 8 + 0)) :=
  ⟨by norm_num [readAttribute, readData, readDataGo, readSnorm8x4, snorm8, toI8, byteAt],
    (attribute_codec_normalization [129, 0, 0, 0, 0, 0, 0, 0] 0 1 8 0 4 4 4 4 4 4 4 8
      [(-1, 0, 0, 0)] [(-1, 0, 0, 0)] [(-1, 0, 0, 0)]
      [(129 / 255, 0, 0, 0)] [(129 / 255, 0, 0, 0)] [(129 / 255, 0, 0, 0)]
      [(129 / 255, 0, 0, 0)] [(129 / 65535, 0, 0, 0)]
      (by norm_num [readAttribute, readData, readDataGo, readSnorm8x4, snorm8, toI8, byteAt])
      (by norm_num [readAttribute, readData, readDataGo, readSnorm8x4, snorm8, toI8, byteAt])
      (by norm_num [readAttribute, readData, readDataGo, readSnorm8x4, snorm8, toI8, byteAt])
      (by norm_num [readAttribute, readData, readDataGo, readUnorm8x4, unorm8, byteAt])
      (by norm_num [readAttribute, readData, readDataGo, readUnorm8x4, unorm8, byteAt])
      (by norm_num [readAttribute, readData, readDataGo, readUnorm8x4, unorm8, byteAt])
      (by norm_num [readAttribute, readData, readDataGo, readUnorm8x4, unorm8, byteAt])
      (by norm_num [readAttribute, readData, readDataGo, readUnorm16x4, unorm16, u16At,
        u16le, byteAt])).1⟩

/-- C2 (amended). An attribute descriptor with a reserved/unknown type
code is silently skipped by `read_vertex_attributes`: `read_attribute`
returns no data for it, the surrounding `filter_map` drops it while still
advancing the running offset by its declared size, and decoding the
remaining attributes proceeds without any error. -/
theorem unsupported_attribute_skipped
    (a : VertexAttribute) (hmem : a.data_type ∈ unsupportedCodes)
    (dOff cnt size : Nat) (buf : List Byte) (pre post : List VertexAttribute) :
    (∀ rel, readAttribute a dOff cnt size rel buf = none) ∧
    readVertexAttributes dOff cnt size (pre ++ a :: post) buf =
      readVertexAttributesAux dOff cnt size buf 0 pre ++
        readVertexAttributesAux dOff cnt size buf (sizeSum pre + a.data_size) post := by
  refine ⟨fun rel => readAttribute_unsupported a hmem dOff cnt size rel buf, ?_⟩
  unfold readVertexAttributes
  rw [readVertexAttributesAux_append]
  congr 1
  simp only [readVertexAttributesAux,
    readAttribute_unsupported a hmem dOff cnt size (0 + sizeSum pre) buf]
  congr 1
  omega

/-- C2 counterexample. Decoding a buffer whose descriptor list contains
the reserved code `Unk15` does not fail: it produces a decoded result
(the remaining supported attributes), with no error of any kind — the
source's `read_vertex_attributes` is infallible by type. -/
theorem unsupported_attribute_counterexample :
    readVertexAttributes 0 1 8 [⟨DataType.Unk15, 4⟩, ⟨DataType.VertexColor, 4⟩]
      [0, 0, 0, 0, 255, 255, 255, 255] = [.VertexColor [(1, 1, 1, 1)]] := by
  norm_num [readVertexAttributes, readVertexAttributesAux, readAttribute, readData,
    readDataGo, readUnorm8x4, unorm8, byteAt]

theorem unsupported_attribute_skipped_witness :
    ((⟨DataType.Unk15, 4⟩ : VertexAttribute).data_type ∈ unsupportedCodes) ∧
    readVertexAttributes 0 1 8 ([⟨DataType.Position, 12⟩] ++ ⟨DataType.Unk15, 4⟩ ::
        [⟨DataType.VertexColor, 4⟩]) [0, 0, 0, 0, 255, 255, 255, 255] =
      readVertexAttributesAux 0 1 8 [0, 0, 0, 0, 255, 255, 255, 255] 0
          [⟨DataType.Position, 12⟩] ++
        readVertexAttributesAux 0 1 8 [0, 0, 0, 0, 255, 255, 255, 255]
          (sizeSum [⟨DataType.Position, 12⟩] + 4) [⟨DataType.VertexColor, 4⟩] :=
  ⟨by decide,
    (unsupported_attribute_skipped ⟨DataType.Unk15, 4⟩ (by decide) 0 1 8
      [0, 0, 0, 0, 255, 255, 255, 255] [⟨DataType.Position, 12⟩]
      [⟨DataType.VertexColor, 4⟩]).2⟩

/-! Morph target decoding (`xc3_model/src/vertex.rs`). The `xc3_lib::vertex`
descriptor types are not under `src/`; they are modelled from their uses in
the decoder and the spec's description of the morph descriptor. -/

/-- Modelled from the spec: `xc3_lib::vertex::MorphTargetFlags` carries the
target-kind flags ("blend", "default", "param") plus opaque regions; the
source constructs it as `MorphTargetFlags::new(unk1, blend_target_buffer,
default_buffer, param_buffer, unk)`. -/
structure MorphTargetFlags where
  unk1 : Nat
  blend_target_buffer : Bool
  default_buffer : Bool
  param_buffer : Bool
  unk : Nat
  deriving DecidableEq, Repr

/-- Modelled from the spec: `xc3_lib::vertex::MorphTarget`, the on-disk
target record (data offset, vertex count, vertex stride, kind flags). -/
structure LibMorphTarget where
  data_offset : Nat
  vertex_count : Nat
  vertex_size : Nat
  flags : MorphTargetFlags
  deriving DecidableEq, Repr

/-- Modelled from the spec: `xc3_lib::vertex::MorphDescriptor`
`(vertex_buffer_index, target_start_index, param_indices[], unk2)`. -/
structure MorphDescriptor where
  vertex_buffer_index : Nat
  target_start_index : Nat
  param_indices : List Nat
  unk2 : Nat
  deriving DecidableEq, Repr

/-- Modelled from the spec: `xc3_lib::vertex::VertexMorphs`, the morph
section holding the descriptors and the flat target list. -/
structure VertexMorphs where
  descriptors : List MorphDescriptor
  targets : List LibMorphTarget
  unks : List Nat
  deriving DecidableEq, Repr

/-- See `MorphTarget` in `xc3_model/src/vertex.rs` (decoded sparse target). -/
structure MorphTarget where
  morph_controller_index : Nat
  position_deltas : List Vec3B
  normals : List Vec4Q
  tangents : List Vec4Q
  vertex_indices : List Nat
  deriving DecidableEq, Repr

/-- See `VertexBuffer` in `xc3_model/src/vertex.rs`. -/
structure VertexBuffer where
  attributes : List AttributeData
  morph_blend_target : List AttributeData
  morph_targets : List MorphTarget
  outline_buffer_index : Option Nat
  deriving DecidableEq, Repr

/-- Source `split_targets`: slice `2 + |param_indices|` consecutive targets
starting at `target_start_index` and split them positionally into
(blend, default, params). No field of any target is examined. -/
def split_targets (d : MorphDescriptor) (vm : VertexMorphs) :
    Option (LibMorphTarget × LibMorphTarget × List LibMorphTarget) :=
  if d.target_start_index + (d.param_indices.length + 2) ≤ vm.targets.length then
    match (vm.targets.drop d.target_start_index).take (d.param_indices.length + 2) with
    | blend :: dflt :: params => some (blend, dflt, params)
    | _ => none
  else none

/-- The four re-biased components decoded from four stored bytes
(`u as f32 / 255.0 * 2.0 - 1.0`). -/
def rebiasTuple (buf : List Byte) (o : Nat) : Vec4Q :=
  (unorm8Rebias (byteAt buf o), unorm8Rebias (byteAt buf (o + 1)),
    unorm8Rebias (byteAt buf (o + 2)), unorm8Rebias (byteAt buf (o + 3)))

/-- See `MorphTargetVertex` in `xc3_model/src/vertex.rs`: the decoded form
of one 32-byte `MorphBufferTargetVertex` record. -/
structure MorphTargetVertex where
  position_delta : Vec3B
  normal : Vec4Q
  tangent : Vec4Q
  vertex_index : Nat
  deriving DecidableEq, Repr

/-- The decoded vertex starting at byte offset `o`: position delta as three
little-endian f32 (bit patterns), 4 skipped bytes (`_unk1`), re-biased
normal and tangent bytes, 4 more skipped bytes (`_unk2`), and a u32 vertex
index. -/
def morphVertexAt (buf : List Byte) (o : Nat) : MorphTargetVertex :=
  { position_delta := (u32At buf o, u32At buf (o + 4), u32At buf (o + 8))
    normal := rebiasTuple buf (o + 16)
    tangent := rebiasTuple buf (o + 20)
    vertex_index := u32At buf (o + 28) }

/-- One iteration of the source `read_morph_buffer_target` loop: read a
32-byte `MorphBufferTargetVertex` at offset `o` and remap its normal and
tangent bytes. -/
def readMorphBufferTargetVertex (buf : List Byte) (o : Nat) : Option MorphTargetVertex :=
  if o + 32 ≤ buf.length then some (morphVertexAt buf o) else none

/-- Source `read_morph_buffer_target`: for `i` in `0..vertex_count`, seek
to `data_offset + i*vertex_size` and decode one vertex record. -/
def readMorphBufferTarget (mt : LibMorphTarget) (buf : List Byte) :
    Option (List MorphTargetVertex) :=
  readData mt.data_offset mt.vertex_count mt.vertex_size 0 buf readMorphBufferTargetVertex

/-- Source `read_morph_target`: decode the sparse vertices in input order
into the struct-of-arrays `MorphTarget`. -/
def read_morph_target (target : LibMorphTarget) (buf : List Byte) (param_index : Nat) :
    Option MorphTarget :=
  (readMorphBufferTarget target buf).map fun vertices =>
    { morph_controller_index := param_index
      position_deltas := vertices.map (·.position_delta)
      normals := vertices.map (·.normal)
      tangents := vertices.map (·.tangent)
      vertex_indices := vertices.map (·.vertex_index) }

/-- Source `read_morph_blend_target`: decode the blend target as a full
attribute buffer with the fixed descriptor list position2 / normal4 /
old_position / tangent2. The per-type byte sizes of the synthesized
descriptors are modelled from the spec ('From DataType' lives in the
`xc3_lib::vertex` module, which is not under `src/`). -/
def read_morph_blend_target (base_target : LibMorphTarget) (buf : List Byte) :
    List AttributeData :=
  readVertexAttributes base_target.data_offset base_target.vertex_count
    base_target.vertex_size
    [⟨.Position2, 12⟩, ⟨.Normal4, 4⟩, ⟨.OldPosition, 12⟩, ⟨.Tangent2, 4⟩] buf

/-- One iteration of the source `assign_morph_targets` loop: skip
out-of-range buffer indices and descriptors whose target slice is missing;
otherwise decode the blend target and the param targets and store them on
the buffer. -/
def assignOneDescriptor (buffers : List VertexBuffer) (buf : List Byte)
    (vm : VertexMorphs) (d : MorphDescriptor) : Option (List VertexBuffer) :=
  match buffers.get? d.vertex_buffer_index with
  | none => some buffers
  | some buffer =>
    match split_targets d vm with
    | none => some buffers
    | some (blend, _dflt, params) => do
      let attributes := read_morph_blend_target blend buf
      let targets ← (params.zip d.param_indices).mapM
        fun tp => read_morph_target tp.1 buf tp.2
      some (buffers.set d.vertex_buffer_index
        { buffer with morph_blend_target := attributes, morph_targets := targets })

/-- Source `assign_morph_targets`: fold the descriptors over the buffer
list, propagating the first decode error. -/
def assign_morph_targets (vm : VertexMorphs) (buffers : List VertexBuffer)
    (buf : List Byte) : Option (List VertexBuffer) :=
  vm.descriptors.foldlM (fun bufs d => assignOneDescriptor bufs buf vm d) buffers

/-- C3 (amended). Decoding fetches the `2 + |param_indices|` consecutive
targets starting at `target_start_index` and assigns them purely by
position — the first as blend, the second as default, the rest as params.
No target's flags are examined, so decoding proceeds (for any flag values)
whenever the slice is in range. -/
theorem split_targets_positional (d : MorphDescriptor) (vm : VertexMorphs)
    (h : d.target_start_index + (d.param_indices.length + 2) ≤ vm.targets.length) :
    split_targets d vm = some
      (vm.targets.get ⟨d.target_start_index, by omega⟩,
        vm.targets.get ⟨d.target_start_index + 1, by omega⟩,
        (vm.targets.drop (d.target_start_index + 2)).take d.param_indices.length) := by
  have hlen : ((vm.targets.drop d.target_start_index).take (d.param_indices.length + 2)).length
      = d.param_indices.length + 2 := by
    rw [List.length_take, List.length_drop]
    omega
  rcases hscr : (vm.targets.drop d.target_start_index).take (d.param_indices.length + 2) with
    _ | ⟨a, _ | ⟨b, t⟩⟩
  · rw [hscr] at hlen; simp at hlen
  · rw [hscr] at hlen; simp at hlen
  · have htlen : t.length = d.param_indices.length := by
      rw [hscr] at hlen; simpa using hlen
    have hfull : a :: b :: (t ++ (vm.targets.drop d.target_start_index).drop
        (d.param_indices.length + 2)) = vm.targets.drop d.target_start_index := by
      have := List.take_append_drop (d.param_indices.length + 2)
        (vm.targets.drop d.target_start_index)
      rw [hscr] at this
      simpa using this
    have hd1 : vm.targets.drop d.target_start_index =
        vm.targets.get ⟨d.target_start_index, by omega⟩ ::
          vm.targets.drop (d.target_start_index + 1) :=
      List.drop_eq_getElem_cons (by omega)
    have hd2 : vm.targets.drop (d.target_start_index + 1) =
        vm.targets.get ⟨d.target_start_index + 1, by omega⟩ ::
          vm.targets.drop (d.target_start_index + 2) :=
      List.drop_eq_getElem_cons (by omega)
    rw [hd1, hd2] at hfull
    injection hfull with ha hfull
    injection hfull with hb hfull
    have ht : t = (vm.targets.drop (d.target_start_index + 2)).take d.param_indices.length := by
      rw [← hfull, List.take_left' htlen]
    unfold split_targets
    rw [if_pos h, hscr, ha, hb]
    dsimp only
    exact congrArg some (congrArg _ (congrArg _ ht))

/-- C3 counterexample. A morph section whose two targets both carry only
the "param" flag (so neither the required "blend" nor "default" flag)
still decodes: `split_targets` returns the positional assignment and
`assign_morph_targets` proceeds to decode the blend attribute data.
The claim's asserted flag check does not exist in the code. -/
theorem split_targets_no_flag_check_counterexample :
    (MorphTargetFlags.mk 0 false false true 0).blend_target_buffer = false ∧
    (MorphTargetFlags.mk 0 false false true 0).default_buffer = false ∧
    split_targets ⟨0, 0, [], 3⟩
        ⟨[⟨0, 0, [], 3⟩],
          [⟨0, 1, 32, ⟨0, false, false, true, 0⟩⟩, ⟨0, 0, 32, ⟨0, false, false, true, 0⟩⟩],
          [0, 0, 0, 0]⟩ =
      some (⟨0, 1, 32, ⟨0, false, false, true, 0⟩⟩, ⟨0, 0, 32, ⟨0, false, false, true, 0⟩⟩, []) ∧
    assign_morph_targets
        ⟨[⟨0, 0, [], 3⟩],
          [⟨0, 1, 32, ⟨0, false, false, true, 0⟩⟩, ⟨0, 0, 32, ⟨0, false, false, true, 0⟩⟩],
          [0, 0, 0, 0]⟩
        [⟨[], [], [], none⟩] (List.replicate 32 0) =
      some [⟨[], [.Position2 [(0, 0, 0)], .Normal4 [(0, 0, 0, 0)],
        .OldPosition [(0, 0, 0)], .Tangent2 [(0, 0, 0, 0)]], [], none⟩] := by
  refine ⟨rfl, rfl, ?_, ?_⟩
  · norm_num [split_targets]
  · norm_num [assign_morph_targets, assignOneDescriptor, split_targets,
      read_morph_blend_target, readVertexAttributes, readVertexAttributesAux,
      readAttribute, readData, readDataGo, readF32x3, readUnorm8x4, unorm8,
      u32At, u32le, byteAt, List.foldlM, List.mapM, List.mapM.loop]

theorem split_targets_positional_witness :
    (0 + (0 + 2) ≤ 2) ∧
    split_targets ⟨0, 0, [], 3⟩
        ⟨[⟨0, 0, [], 3⟩],
          [⟨0, 1, 32, ⟨0, true, false, false, 0⟩⟩, ⟨32, 0, 32, ⟨0, false, true, false, 0⟩⟩],
          [0, 0, 0, 0]⟩ =
      some (⟨0, 1, 32, ⟨0, true, false, false, 0⟩⟩, ⟨32, 0, 32, ⟨0, false, true, false, 0⟩⟩,
        ([] : List LibMorphTarget)) :=
  ⟨by norm_num, by
    have := split_targets_positional ⟨0, 0, [], 3⟩
      ⟨[⟨0, 0, [], 3⟩],
        [⟨0, 1, 32, ⟨0, true, false, false, 0⟩⟩, ⟨32, 0, 32, ⟨0, false, true, false, 0⟩⟩],
        [0, 0, 0, 0]⟩ (by norm_num)
    simpa using this⟩

/-- C5. Decoding a param morph target with vertex count `n`, vertex size
`s`, and data offset `o` reads, for each `i` in `0..n` at byte offset
`o + i*s`: a position delta as three little-endian f32, then after 4
skipped bytes a normal whose unsigned bytes `u` decode as
`u/255 * 2 - 1`, then a tangent decoded the same way, then after 4 more
skipped bytes a u32 vertex index; `read_morph_target` preserves this
sparse per-affected-vertex representation in input order. -/
theorem morph_param_target_decode (mt : LibMorphTarget) (buf : List Byte) (pidx : Nat)
    (vs : List MorphTargetVertex)
    (h : readMorphBufferTarget mt buf = some vs) :
    vs.length = mt.vertex_count ∧
    (∀ i (hi : i < vs.length),
      vs.get ⟨i, hi⟩ = morphVertexAt buf (mt.data_offset + i * mt.vertex_size)) ∧
    read_morph_target mt buf pidx = some
      { morph_controller_index := pidx
        position_deltas := vs.map (·.position_delta)
        normals := vs.map (·.normal)
        tangents := vs.map (·.tangent)
        vertex_indices := vs.map (·.vertex_index) } := by
  obtain ⟨hlen, hvals⟩ := readData_some h
  refine ⟨hlen, fun i hi => ?_, ?_⟩
  · have hv := hvals i hi
    unfold readMorphBufferTargetVertex at hv
    split at hv
    · injection hv with hv
      rw [← hv, Nat.add_zero]
    · cases hv
  · unfold read_morph_target
    rw [h]
    rfl

theorem morph_param_target_decode_witness :
    (readMorphBufferTarget ⟨0, 1, 32, ⟨0, false, false, true, 0⟩⟩
      [1, 0, 0, 0, 2, 0, 0, 0, 3, 0, 0, 0, 9, 9, 9, 9, 255, 0, 0, 0,
        0, 255, 0, 0, 7, 7, 7, 7, 5, 0, 0, 0] =
      some [⟨(1, 2, 3), (1, -1, -1, -1), (-1, 1, -1, -1), 5⟩]) ∧
    read_morph_target ⟨0, 1, 32, ⟨0, false, false, true, 0⟩⟩
      [1, 0, 0, 0, 2, 0, 0, 0, 3, 0, 0, 0, 9, 9, 9, 9, 255, 0, 0, 0,
        0, 255, 0, 0, 7, 7, 7, 7, 5, 0, 0, 0] 7 =
      some ⟨7, [(1, 2, 3)], [(1, -1, -1, -1)], [(-1, 1, -1, -1)], [5]⟩ := by
  have hread : readMorphBufferTarget ⟨0, 1, 32, ⟨0, false, false, true, 0⟩⟩
      [1, 0, 0, 0, 2, 0, 0, 0, 3, 0, 0, 0, 9, 9, 9, 9, 255, 0, 0, 0,
        0, 255, 0, 0, 7, 7, 7, 7, 5, 0, 0, 0] =
      some [⟨(1, 2, 3), (1, -1, -1, -1), (-1, 1, -1, -1), 5⟩] := by
    norm_num [readMorphBufferTarget, readData, readDataGo, readMorphBufferTargetVertex,
      morphVertexAt, rebiasTuple, unorm8Rebias, unorm8, u32At, u32le, byteAt]
  refine ⟨hread, ?_⟩
  have := (morph_param_target_decode _ _ 7 _ hread).2.2
  simpa using this

/-! Skin weight extraction (`skin_weights_bone_indices` in
`xc3_model/src/vertex.rs`). The legacy `SkinWeights2` attribute stores
three f32 components (carried here as bit patterns); the source extends
them with `1.0 - v.element_sum()`, modelled exactly over the rational
values `val32` of the stored components. -/

/-- `v.extend(1.0 - v.element_sum())` for a legacy three-component weight. -/
def extendWeights (v : Vec3B) : Vec4Q :=
  (val32 v.1, val32 v.2.1, val32 v.2.2,
    1 - (val32 v.1 + val32 v.2.1 + val32 v.2.2))

/-- First `find_map` closure of `skin_weights_bone_indices`. -/
def weightsFromAttribute : AttributeData → Option (List Vec4Q)
  | .SkinWeights values => some values
  | .SkinWeights2 values => some (values.map extendWeights)
  | _ => none

/-- Second `find_map` closure of `skin_weights_bone_indices`. -/
def indicesFromAttribute : AttributeData → Option (List (Nat × Nat × Nat × Nat))
  | .BoneIndices values => some values
  | .BoneIndices2 values => some values
  | _ => none

/-- Source `skin_weights_bone_indices`: the first weight-like attribute
and the first bone-index attribute, or `None` when either is missing. -/
def skin_weights_bone_indices (attributes : List AttributeData) :
    Option (List Vec4Q × List (Nat × Nat × Nat × Nat)) := do
  let weights ← attributes.findSome? weightsFromAttribute
  let indices ← attributes.findSome? indicesFromAttribute
  some (weights, indices)

theorem findSome?_all_none {α β : Type} {f : α → Option β} :
    ∀ {l : List α}, (∀ a ∈ l, f a = none) → l.findSome? f = none
  | [], _ => rfl
  | a :: t, h => by
    have ha := h a (List.mem_cons_self a t)
    rw [List.findSome?_cons, ha]
    exact findSome?_all_none fun x hx => h x (List.mem_cons_of_mem a hx)

theorem findSome?_append_all_none {α β : Type} {f : α → Option β} :
    ∀ {pre : List α}, (∀ a ∈ pre, f a = none) → ∀ rest : List α,
      (pre ++ rest).findSome? f = rest.findSome? f
  | [], _, _ => rfl
  | a :: t, h, rest => by
    have ha := h a (List.mem_cons_self a t)
    rw [List.cons_append, List.findSome?_cons, ha]
    exact findSome?_append_all_none (fun x hx => h x (List.mem_cons_of_mem a hx)) rest

/-- C10. When the first weight-like attribute is the legacy `SkinWeights2`
(3×f32 per vertex), the produced four-component weights are the stored
components extended with `1 - (sum of the three)`, so every produced
vector sums to exactly one; and when no weight-like attribute or no
bone-index attribute is present, no skin weight data is produced. -/
theorem legacy_skin_weights_extension
    (pre post : List AttributeData) (vs : List Vec3B)
    (idx : List (Nat × Nat × Nat × Nat))
    (attrs2 attrs3 : List AttributeData)
    (hpre : ∀ a ∈ pre, weightsFromAttribute a = none)
    (hidx : (pre ++ .SkinWeights2 vs :: post).findSome? indicesFromAttribute = some idx)
    (h2 : ∀ a ∈ attrs2, weightsFromAttribute a = none)
    (h3 : ∀ a ∈ attrs3, indicesFromAttribute a = none) :
    skin_weights_bone_indices (pre ++ .SkinWeights2 vs :: post) =
      some (vs.map extendWeights, idx) ∧
    (∀ w ∈ vs.map extendWeights, w.1 + w.2.1 + w.2.2.1 + w.2.2.2 = 1) ∧
    skin_weights_bone_indices attrs2 = none ∧
    skin_weights_bone_indices attrs3 = none := by
  refine ⟨?_, ?_, ?_, ?_⟩
  · have hw : (pre ++ AttributeData.SkinWeights2 vs :: post).findSome? weightsFromAttribute =
        some (vs.map extendWeights) := by
      rw [findSome?_append_all_none hpre, List.findSome?_cons]
      rfl
    unfold skin_weights_bone_indices
    rw [hw, hidx]
    rfl
  · intro w hw
    simp only [List.mem_map] at hw
    obtain ⟨v, _, rfl⟩ := hw
    simp only [extendWeights]
    ring
  · unfold skin_weights_bone_indices
    rw [findSome?_all_none h2]
    rfl
  · unfold skin_weights_bone_indices
    rw [findSome?_all_none h3]
    cases attrs2.findSome? weightsFromAttribute <;>
      cases attrs3.findSome? weightsFromAttribute <;> rfl

theorem legacy_skin_weights_extension_witness :
    ((([] : List AttributeData) ++ AttributeData.SkinWeights2
        [(1056964608, 1048576000, 0)] :: [.BoneIndices [(1, 2, 0, 0)]]).findSome?
      indicesFromAttribute = some [(1, 2, 0, 0)]) ∧
    skin_weights_bone_indices
        ([] ++ AttributeData.SkinWeights2 [(1056964608, 1048576000, 0)] ::
          [.BoneIndices [(1, 2, 0, 0)]]) =
      some ([(1056964608, 1048576000, 0)].map extendWeights, [(1, 2, 0, 0)]) ∧
    (∀ w ∈ ([(1056964608, 1048576000, 0)] : List Vec3B).map extendWeights,
      w.1 + w.2.1 + w.2.2.1 + w.2.2.2 = 1) ∧
    skin_weights_bone_indices [.Position []] = none ∧
    skin_weights_bone_indices [.SkinWeights []] = none := by
  have hidx : (([] : List AttributeData) ++ AttributeData.SkinWeights2
      [(1056964608, 1048576000, 0)] :: [.BoneIndices [(1, 2, 0, 0)]]).findSome?
      indicesFromAttribute = some [(1, 2, 0, 0)] := by
    rw [List.nil_append, List.findSome?_cons]
    rfl
  refine ⟨hidx, ?_⟩
  exact legacy_skin_weights_extension [] [.BoneIndices [(1, 2, 0, 0)]]
    [(1056964608, 1048576000, 0)] [(1, 2, 0, 0)] [.Position []] [.SkinWeights []]
    (by simp) hidx
    (by intro a ha; simp only [List.mem_singleton] at ha; subst ha; rfl)
    (by intro a ha; simp only [List.mem_singleton] at ha; subst ha; rfl)

/-! Saved-position heap-reference readers (`parse_array` and
`parse_string_ptr32` in `xc3_lib/src/lib.rs`). A binrw reader over an
in-memory buffer is a cursor; since the Rust reader is a `&mut` that
keeps its position when a read fails, failures carry the cursor. -/

structure RCursor where
  data : List Byte
  pos : Nat
  deriving DecidableEq, Repr

def RCursor.seek (c : RCursor) (p : Nat) : RCursor := { c with pos := p }

/-- `u32::read_options`: read 4 little-endian bytes and advance. At end of
stream the read fails; the claims only exercise the failure case with zero
available bytes, where the position is left unchanged. -/
def RCursor.readU32 (c : RCursor) : Except RCursor (Nat × RCursor) :=
  if c.pos + 4 ≤ c.data.length then
    .ok (u32At c.data c.pos, { c with pos := c.pos + 4 })
  else .error c

/-- `Vec::read_options` with a count: read `n` elements sequentially,
propagating the first failure. -/
def readVec (rdElem : RCursor → Except RCursor (α × RCursor)) :
    Nat → RCursor → Except RCursor (List α × RCursor)
  | 0, c => .ok ([], c)
  | n + 1, c => do
    let (v, c1) ← rdElem c
    let (vs, c2) ← readVec rdElem n c1
    .ok (v :: vs, c2)

/-- Source `parse_array`: read a u32 offset and u32 count, save the
position, seek to the offset, read the elements, seek back. Each `match`
on an error arm is one of the source's `?` operators: the element-read
failure returns before the restoring seek. -/
def parse_array (rdElem : RCursor → Except RCursor (α × RCursor)) (c : RCursor) :
    Except RCursor (List α × RCursor) :=
  match c.readU32 with
  | .error e => .error e
  | .ok (offset, c1) =>
    match c1.readU32 with
    | .error e => .error e
    | .ok (count, c2) =>
      match readVec rdElem count (c2.seek offset) with
      | .error e => .error e
      | .ok (values, c4) => .ok (values, c4.seek c2.pos)

/-- `NullString::read_options`: bytes up to the first NUL; reading past
the end of the buffer without finding one fails with the cursor at the
end of stream. -/
def readNullString (c : RCursor) : Except RCursor (List Byte × RCursor) :=
  match (c.data.drop c.pos).findIdx? (· = 0) with
  | some j => .ok ((c.data.drop c.pos).take j, { c with pos := c.pos + j + 1 })
  | none => .error { c with pos := c.data.length }

/-- Source `parse_string_ptr32`: read a u32 offset, save the position,
seek to `base + offset`, read a null-terminated string, seek back. The
`match` error arms are the source's `?` operators: the string-read
failure returns before the restoring seek. -/
def parse_string_ptr32 (base : Nat) (c : RCursor) :
    Except RCursor (List Byte × RCursor) :=
  match c.readU32 with
  | .error e => .error e
  | .ok (offset, c1) =>
    match readNullString (c1.seek (base + offset)) with
    | .error e => .error e
    | .ok (s, c3) => .ok (s, c3.seek c1.pos)

theorem readU32_ok {c c1 : RCursor} {v : Nat} (h : c.readU32 = .ok (v, c1)) :
    c1.pos = c.pos + 4 := by
  unfold RCursor.readU32 at h
  split at h
  · injection h with h
    injection h with hv hc
    rw [← hc]
  · cases h

/-- C9 (amended). When the whole heap-reference read succeeds, the
reader's position afterward equals the position immediately after the
inline portion (offset+count for `parse_array`, offset for
`parse_string_ptr32`); on failure the error propagates without the
restoring seek. -/
theorem saved_position_restored_on_success :
    (∀ (α : Type) (rdElem : RCursor → Except RCursor (α × RCursor)) (c : RCursor)
      (vs : List α) (cf : RCursor),
        parse_array rdElem c = .ok (vs, cf) → cf.pos = c.pos + 8) ∧
    (∀ (base : Nat) (c : RCursor) (s : List Byte) (cf : RCursor),
      parse_string_ptr32 base c = .ok (s, cf) → cf.pos = c.pos + 4) := by
  constructor
  · intro α rdElem c vs cf h
    unfold parse_array at h
    split at h
    · cases h
    rename_i off c1 heq1
    split at h
    · cases h
    rename_i cnt c2 heq2
    split at h
    · cases h
    rename_i values c4 heq3
    injection h with h
    injection h with _ hcf
    rw [← hcf]
    simp [RCursor.seek, readU32_ok heq2, readU32_ok heq1]
  · intro base c s cf h
    unfold parse_string_ptr32 at h
    split at h
    · cases h
    rename_i off c1 heq1
    split at h
    · cases h
    rename_i str c3 heq3
    injection h with h
    injection h with _ hcf
    rw [← hcf]
    simp [RCursor.seek, readU32_ok heq1]

/-- C9 counterexample. A `parse_array` whose referenced element read fails
(offset 100 points past the end of an 8-byte buffer) propagates the error
with the reader left at position 100 — not restored to position 8, the end
of the inline offset+count portion. -/
theorem saved_position_counterexample :
    parse_array (fun c => c.readU32) ⟨[100, 0, 0, 0, 1, 0, 0, 0], 0⟩ =
      .error ⟨[100, 0, 0, 0, 1, 0, 0, 0], 100⟩ ∧ (100 : Nat) ≠ 0 + 8 := by
  constructor
  · rfl
  · decide

theorem saved_position_restored_witness :
    parse_array (fun c => c.readU32) ⟨[8, 0, 0, 0, 1, 0, 0, 0, 5, 0, 0, 0], 0⟩ =
      .ok ([5], RCursor.mk [8, 0, 0, 0, 1, 0, 0, 0, 5, 0, 0, 0] 8) ∧
    (RCursor.mk [8, 0, 0, 0, 1, 0, 0, 0, 5, 0, 0, 0] 8).pos = 0 + 8 :=
  ⟨by rfl,
    saved_position_restored_on_success.1 Nat (fun c => c.readU32)
      ⟨[8, 0, 0, 0, 1, 0, 0, 0, 5, 0, 0, 0], 0⟩ [5]
      (RCursor.mk [8, 0, 0, 0, 1, 0, 0, 0, 5, 0, 0, 0] 8) (by rfl)⟩

/-! Mibl swizzled textures (`xc3_lib/src/mibl.rs`). The deswizzle and
swizzled-size computations live in the external `tegra_swizzle` crate, so
the embedding takes them as function parameters over their argument
records. -/

/-- See `ViewDimension` in `xc3_lib/src/mibl.rs` (`repr(u32)` codes). -/
inductive ViewDimension where
  | D2 | D3 | Cube
  deriving DecidableEq, Repr

def ViewDimension.code : ViewDimension → Nat
  | .D2 => 1
  | .D3 => 2
  | .Cube => 8

def viewDimensionOfCode (n : Nat) : Option ViewDimension :=
  if n = 1 then some .D2 else if n = 2 then some .D3 else if n = 8 then some .Cube else none

/-- See `ImageFormat` in `xc3_lib/src/mibl.rs` (`repr(u32)` codes). -/
inductive ImageFormat where
  | R8Unorm | R8G8B8A8Unorm | R16G16B16A16Float | R4G4B4A4
  | BC1Unorm | BC2Unorm | BC3Unorm | BC4Unorm | BC5Unorm | BC7Unorm | BC6UFloat
  | B8G8R8A8Unorm
  deriving DecidableEq, Repr

def ImageFormat.code : ImageFormat → Nat
  | .R8Unorm => 1
  | .R8G8B8A8Unorm => 37
  | .R16G16B16A16Float => 41
  | .R4G4B4A4 => 57
  | .BC1Unorm => 66
  | .BC2Unorm => 67
  | .BC3Unorm => 68
  | .BC4Unorm => 73
  | .BC5Unorm => 75
  | .BC7Unorm => 77
  | .BC6UFloat => 80
  | .B8G8R8A8Unorm => 109

def imageFormatOfCode (n : Nat) : Option ImageFormat :=
  if n = 1 then some .R8Unorm
  else if n = 37 then some .R8G8B8A8Unorm
  else if n = 41 then some .R16G16B16A16Float
  else if n = 57 then some .R4G4B4A4
  else if n = 66 then some .BC1Unorm
  else if n = 67 then some .BC2Unorm
  else if n = 68 then some .BC3Unorm
  else if n = 73 then some .BC4Unorm
  else if n = 75 then some .BC5Unorm
  else if n = 77 then some .BC7Unorm
  else if n = 80 then some .BC6UFloat
  else if n = 109 then some .B8G8R8A8Unorm
  else none

/-- `tegra_swizzle::surface::BlockDim` (1×1×1 uncompressed, 4×4×1 BC). -/
structure BlockDim where
  width : Nat
  height : Nat
  depth : Nat
  deriving DecidableEq, Repr

def blockDimUncompressed : BlockDim := ⟨1, 1, 1⟩

def blockDim4x4 : BlockDim := ⟨4, 4, 1⟩

/-- Source `ImageFormat::block_dim`. -/
def ImageFormat.block_dim : ImageFormat → BlockDim
  | .R8Unorm => blockDimUncompressed
  | .R8G8B8A8Unorm => blockDimUncompressed
  | .R16G16B16A16Float => blockDimUncompressed
  | .R4G4B4A4 => blockDimUncompressed
  | .BC1Unorm => blockDim4x4
  | .BC2Unorm => blockDim4x4
  | .BC3Unorm => blockDim4x4
  | .BC4Unorm => blockDim4x4
  | .BC5Unorm => blockDim4x4
  | .BC7Unorm => blockDim4x4
  | .BC6UFloat => blockDim4x4
  | .B8G8R8A8Unorm => blockDimUncompressed

/-- Source `ImageFormat::bytes_per_pixel`. -/
def ImageFormat.bytes_per_pixel : ImageFormat → Nat
  | .R8Unorm => 1
  | .R8G8B8A8Unorm => 4
  | .R16G16B16A16Float => 8
  | .R4G4B4A4 => 2
  | .BC1Unorm => 8
  | .BC2Unorm => 16
  | .BC3Unorm => 16
  | .BC4Unorm => 8
  | .BC5Unorm => 16
  | .BC7Unorm => 16
  | .BC6UFloat => 16
  | .B8G8R8A8Unorm => 4

/-- See `MiblFooter` in `xc3_lib/src/mibl.rs` (the 40-byte trailer; the
magic `b"LBIM"` is validated on read and emitted on write, not stored). -/
structure MiblFooter where
  image_size : Nat
  unk : Nat
  width : Nat
  height : Nat
  depth : Nat
  view_dimension : ViewDimension
  image_format : ImageFormat
  mipmap_count : Nat
  version : Nat
  deriving DecidableEq, Repr

/-- See `Mibl` in `xc3_lib/src/mibl.rs`. -/
structure Mibl where
  image_data : List Byte
  footer : MiblFooter
  deriving DecidableEq, Repr

def lbimMagic : List Byte := [76, 66, 73, 77]

/-- The binrw read of `MiblFooter` at absolute offset `base`: nine u32
fields followed by the `b"LBIM"` magic check; enum fields must carry a
declared code. -/
def parseMiblFooterAt (file : List Byte) (base : Nat) : Option MiblFooter :=
  if base + 40 ≤ file.length then
    match viewDimensionOfCode (u32At file (base + 20)),
        imageFormatOfCode (u32At file (base + 24)) with
    | some vd, some fmt =>
      if (file.drop (base + 36)).take 4 = lbimMagic then
        some { image_size := u32At file base, unk := u32At file (base + 4)
               width := u32At file (base + 8), height := u32At file (base + 12)
               depth := u32At file (base + 16), view_dimension := vd
               image_format := fmt, mipmap_count := u32At file (base + 28)
               version := u32At file (base + 32) }
      else none
    | _, _ => none
  else none

/-- Source `Mibl::read_options`: seek to 40 bytes before the end (failing
when the input is shorter than 40 bytes), read the footer there, seek back
to the start, and read exactly `image_size` bytes. -/
def readMibl (file : List Byte) : Option Mibl :=
  if 40 ≤ file.length then
    match parseMiblFooterAt file (file.length - 40) with
    | none => none
    | some footer =>
      if footer.image_size ≤ file.length then
        some { image_data := file.take footer.image_size, footer := footer }
      else none
  else none

/-- Arguments of `tegra_swizzle::surface::deswizzle_surface` (external
crate; the embedding quantifies over its behavior). -/
structure DeswizzleArgs where
  width : Nat
  height : Nat
  depth : Nat
  source : List Byte
  block_dim : BlockDim
  bytes_per_pixel : Nat
  mipmap_count : Nat
  layer_count : Nat

/-- Source `Mibl::deswizzled_image_data`, parameterized by the external
deswizzler `ds`. -/
def Mibl.deswizzled_image_data (ds : DeswizzleArgs → Option (List Byte)) (m : Mibl) :
    Option (List Byte) :=
  ds { width := m.footer.width, height := m.footer.height, depth := m.footer.depth
       source := m.image_data, block_dim := m.footer.image_format.block_dim
       bytes_per_pixel := m.footer.image_format.bytes_per_pixel
       mipmap_count := m.footer.mipmap_count
       layer_count := if m.footer.view_dimension = .Cube then 6 else 1 }

/-- Source `Mibl::deswizzle_image_data_base_mip`: deswizzle the streamed
base mip at double width and height with a single mip, deswizzle the
low-mip chain at its declared size, and append the chain bytes to the
base-mip bytes (the source unwraps both results; panics are `none`). -/
def Mibl.deswizzle_image_data_base_mip (ds : DeswizzleArgs → Option (List Byte))
    (m : Mibl) (base_mip_level : List Byte) : Option (List Byte) := do
  let image_data ← ds
    { width := m.footer.width * 2, height := m.footer.height * 2, depth := m.footer.depth
      source := base_mip_level, block_dim := m.footer.image_format.block_dim
      bytes_per_pixel := m.footer.image_format.bytes_per_pixel
      mipmap_count := 1
      layer_count := if m.footer.view_dimension = .Cube then 6 else 1 }
  let low ← m.deswizzled_image_data ds
  some (image_data ++ low)

/-- C6. The two-part merge deswizzles the base mip at double the declared
width and height with mip count 1 (6 layers exactly for a Cube view, else
1), deswizzles the low-mip chain at its declared size, and concatenates
base-mip bytes followed by low-chain bytes with no padding between the
surfaces (the output length is the sum of the two lengths). -/
theorem mibl_base_mip_merge (ds : DeswizzleArgs → Option (List Byte)) (m : Mibl)
    (base_mip_level a b : List Byte)
    (ha : ds { width := m.footer.width * 2, height := m.footer.height * 2
               depth := m.footer.depth, source := base_mip_level
               block_dim := m.footer.image_format.block_dim
               bytes_per_pixel := m.footer.image_format.bytes_per_pixel
               mipmap_count := 1
               layer_count := if m.footer.view_dimension = .Cube then 6 else 1 } = some a)
    (hb : ds { width := m.footer.width, height := m.footer.height
               depth := m.footer.depth, source := m.image_data
               block_dim := m.footer.image_format.block_dim
               bytes_per_pixel := m.footer.image_format.bytes_per_pixel
               mipmap_count := m.footer.mipmap_count
               layer_count := if m.footer.view_dimension = .Cube then 6 else 1 } = some b) :
    m.deswizzle_image_data_base_mip ds base_mip_level = some (a ++ b) ∧
    (m.deswizzle_image_data_base_mip ds base_mip_level).map List.length =
      some (a.length + b.length) := by
  have hmain : m.deswizzle_image_data_base_mip ds base_mip_level = some (a ++ b) := by
    unfold Mibl.deswizzle_image_data_base_mip Mibl.deswizzled_image_data
    rw [ha, hb]
    rfl
  exact ⟨hmain, by rw [hmain]; simp⟩

theorem mibl_base_mip_merge_witness :
    ((fun args => some args.source : DeswizzleArgs → Option (List Byte))
        { width := 2 * 2, height := 2 * 2, depth := 1, source := [9]
          block_dim := blockDimUncompressed, bytes_per_pixel := 1
          mipmap_count := 1, layer_count := 1 } = some [9]) ∧
    Mibl.deswizzle_image_data_base_mip (fun args => some args.source)
      ⟨[1, 2], ⟨2, 0, 2, 2, 1, .D2, .R8Unorm, 1, 10001⟩⟩ [9] = some ([9] ++ [1, 2]) := by
  refine ⟨rfl, ?_⟩
  exact (mibl_base_mip_merge (fun args => some args.source)
    ⟨[1, 2], ⟨2, 0, 2, 2, 1, .D2, .R8Unorm, 1, 10001⟩⟩ [9] [9] [1, 2] rfl rfl).1

/-- C8. Reading a Mibl seeks to 40 bytes before the end and validates the
footer there: an input shorter than 40 bytes fails; a footer whose magic
bytes (the final 4 of the 40) differ from `b"LBIM"` fails; on success the
result's image data is the first `image_size` bytes of the file; and when
fewer than `image_size` bytes are available the read fails. -/
theorem mibl_read_spec (file : List Byte) :
    (file.length < 40 → readMibl file = none) ∧
    ((file.drop (file.length - 40 + 36)).take 4 ≠ lbimMagic → readMibl file = none) ∧
    (∀ footer, parseMiblFooterAt file (file.length - 40) = some footer →
      (footer.image_size ≤ file.length →
        readMibl file = some ⟨file.take footer.image_size, footer⟩) ∧
      (file.length < footer.image_size → readMibl file = none)) := by
  refine ⟨fun hshort => ?_, fun hmagic => ?_, fun footer hfooter => ⟨fun hle => ?_, fun hgt => ?_⟩⟩
  · unfold readMibl
    rw [if_neg (by omega)]
  · unfold readMibl
    split
    · rename_i h40
      have hfoot : parseMiblFooterAt file (file.length - 40) = none := by
        unfold parseMiblFooterAt
        rw [if_pos (by omega)]
        split
        · rw [if_neg hmagic]
        · rfl
      rw [hfoot]
    · rfl
  · have h40 : 40 ≤ file.length := by
      by_contra hlt
      unfold parseMiblFooterAt at hfooter
      rw [if_neg (by omega)] at hfooter
      cases hfooter
    unfold readMibl
    rw [if_pos h40, hfooter]
    dsimp only
    rw [if_pos hle]
  · unfold readMibl
    split
    · rw [hfooter]
      dsimp only
      rw [if_neg (by omega)]
    · rfl

theorem mibl_read_spec_witness :
    (parseMiblFooterAt
        [0, 0, 0, 0, 0, 0, 0, 0, 1, 0, 0, 0, 1, 0, 0, 0, 1, 0, 0, 0, 1, 0, 0, 0,
          1, 0, 0, 0, 1, 0, 0, 0, 17, 39, 0, 0, 76, 66, 73, 77]
        (([0, 0, 0, 0, 0, 0, 0, 0, 1, 0, 0, 0, 1, 0, 0, 0, 1, 0, 0, 0, 1, 0, 0, 0,
          1, 0, 0, 0, 1, 0, 0, 0, 17, 39, 0, 0, 76, 66, 73, 77] : List Byte).length - 40) =
      some ⟨0, 0, 1, 1, 1, .D2, .R8Unorm, 1, 10001⟩) ∧
    readMibl [0, 0, 0, 0, 0, 0, 0, 0, 1, 0, 0, 0, 1, 0, 0, 0, 1, 0, 0, 0, 1, 0, 0, 0,
        1, 0, 0, 0, 1, 0, 0, 0, 17, 39, 0, 0, 76, 66, 73, 77] =
      some ⟨[], ⟨0, 0, 1, 1, 1, .D2, .R8Unorm, 1, 10001⟩⟩ := by
  have hfoot : parseMiblFooterAt
      [0, 0, 0, 0, 0, 0, 0, 0, 1, 0, 0, 0, 1, 0, 0, 0, 1, 0, 0, 0, 1, 0, 0, 0,
        1, 0, 0, 0, 1, 0, 0, 0, 17, 39, 0, 0, 76, 66, 73, 77] 0 =
      some ⟨0, 0, 1, 1, 1, .D2, .R8Unorm, 1, 10001⟩ := by decide
  refine ⟨hfoot, ?_⟩
  have := ((mibl_read_spec
    [0, 0, 0, 0, 0, 0, 0, 0, 1, 0, 0, 0, 1, 0, 0, 0, 1, 0, 0, 0, 1, 0, 0, 0,
      1, 0, 0, 0, 1, 0, 0, 0, 17, 39, 0, 0, 76, 66, 73, 77]).2.2
    ⟨0, 0, 1, 1, 1, .D2, .R8Unorm, 1, 10001⟩ hfoot).1 (by decide)
  simpa using this

/-! Write-side byte cursor (`Cursor<Vec<u8>>`). The buffer is a content
function plus a length; all writers start from `WCursor.empty`, whose
content function is constantly zero, matching the Rust cursor's zero fill
of any gap created by seeking past the end before writing. -/

structure WCursor where
  data : Nat → Byte
  len : Nat
  pos : Nat

def WCursor.empty : WCursor := ⟨fun _ => 0, 0, 0⟩

/-- Write `bs` at absolute position `p` (used via seeks in `write_data`). -/
def WCursor.writeAt (c : WCursor) (p : Nat) (bs : List Byte) : WCursor :=
  { data := fun q => if p ≤ q ∧ q < p + bs.length then bs.getD (q - p) 0 else c.data q
    len := max c.len (p + bs.length)
    pos := p + bs.length }

/-- `write_all` at the current position. -/
def WCursor.write (c : WCursor) (bs : List Byte) : WCursor := c.writeAt c.pos bs

def WCursor.seekW (c : WCursor) (p : Nat) : WCursor := { c with pos := p }

/-- `into_inner`: the buffer contents. -/
def WCursor.toBytes (c : WCursor) : List Byte := (List.range c.len).map c.data

theorem getD_append_left {l l' : List Byte} {n : Nat} (h : n < l.length) :
    (l ++ l').getD n 0 = l.getD n 0 := by
  simp [List.getD, List.getElem?_append, h]

theorem getD_append_right {l l' : List Byte} {n : Nat} (h : l.length ≤ n) :
    (l ++ l').getD n 0 = l'.getD (n - l.length) 0 := by
  simp [List.getD, List.getElem?_append_right, h]

theorem getD_replicate_zero (n i : Nat) : (List.replicate n (0 : Byte)).getD i 0 = 0 := by
  rcases Nat.lt_or_ge i n with h | h
  · rw [List.getD_eq_getElem _ _ (by simpa using h)]
    simp
  · rw [List.getD_eq_default]
    simpa using h

theorem getD_take_lt {l : List Byte} {n i : Nat} (h : i < n) :
    (l.take n).getD i 0 = l.getD i 0 := by
  simp [List.getD, List.getElem?_take, h]

theorem WCursor.toBytes_eq {c : WCursor} {l : List Byte} (hlen : c.len = l.length)
    (hdata : ∀ q, q < c.len → c.data q = l.getD q 0) : c.toBytes = l := by
  apply List.ext_getElem (by simp [WCursor.toBytes, hlen])
  intro i h1 h2
  have hi : i < c.len := by simpa [WCursor.toBytes] using h1
  simp only [WCursor.toBytes, List.getElem_map, List.getElem_range]
  rw [hdata i hi, List.getD_eq_getElem]

/-- Little-endian serialization of a u32 value. -/
def encU32le (n : Nat) : List Byte :=
  [n % 256, n / 256 % 256, n / 65536 % 256, n / 16777216 % 256]

/-- The 40 footer bytes binrw emits for `MiblFooter` (nine u32 fields in
declaration order followed by the `b"LBIM"` magic). -/
def miblFooterBytes (f : MiblFooter) : List Byte :=
  encU32le f.image_size ++ encU32le f.unk ++ encU32le f.width ++ encU32le f.height ++
    encU32le f.depth ++ encU32le f.view_dimension.code ++ encU32le f.image_format.code ++
    encU32le f.mipmap_count ++ encU32le f.version ++ lbimMagic

theorem miblFooterBytes_length (f : MiblFooter) : (miblFooterBytes f).length = 40 := by
  simp [miblFooterBytes, encU32le, lbimMagic]

/-- Arguments of `tegra_swizzle::surface::swizzled_surface_size` as
passed by `Mibl::write_options` (external crate; quantified over). -/
structure SurfaceSizeArgs where
  width : Nat
  height : Nat
  depth : Nat
  block_dim : BlockDim
  bytes_per_pixel : Nat
  mipmap_count : Nat
  layer_count : Nat

def surfaceSizeArgs (m : Mibl) : SurfaceSizeArgs :=
  { width := m.footer.width, height := m.footer.height, depth := m.footer.depth
    block_dim := m.footer.image_format.block_dim
    bytes_per_pixel := m.footer.image_format.bytes_per_pixel
    mipmap_count := m.footer.mipmap_count
    layer_count := if m.footer.view_dimension = .Cube then 6 else 1 }

/-- Source `Mibl::write_options`, parameterized by the external
`swizzled_surface_size` function `sss`: write the image data, append 4096
zero bytes when the footer does not fit in the trailing slack
(`aligned_size - unaligned_size < MIBL_FOOTER_SIZE`), then seek to 40
bytes before the end and write the footer. -/
def writeMibl (sss : SurfaceSizeArgs → Nat) (m : Mibl) : List Byte :=
  let unaligned_size := sss (surfaceSizeArgs m)
  let aligned_size := m.image_data.length
  let c1 := WCursor.empty.write m.image_data
  let c2 := if aligned_size - unaligned_size < 40 then c1.write (List.replicate 4096 0) else c1
  let c3 := c2.seekW (c2.len - 40)
  (c3.write (miblFooterBytes m.footer)).toBytes

/-- Seek to 40 bytes before the end and overwrite the final 40 bytes with
`fb`, for a cursor whose contents are `l`. -/
theorem toBytes_footer_overwrite (c : WCursor) (fb l : List Byte)
    (hfb : fb.length = 40) (hlen : c.len = l.length) (h40 : 40 ≤ c.len)
    (hdata : ∀ q, q < c.len → c.data q = l.getD q 0) :
    ((c.seekW (c.len - 40)).write fb).toBytes = l.take (l.length - 40) ++ fb := by
  apply WCursor.toBytes_eq
  · simp only [WCursor.write, WCursor.writeAt, WCursor.seekW, List.length_append,
      List.length_take, hfb, hlen]
    omega
  · intro q hq
    have hq2 : q < c.len := by
      simp only [WCursor.write, WCursor.writeAt, WCursor.seekW, hfb] at hq
      omega
    simp only [WCursor.write, WCursor.writeAt, WCursor.seekW, hfb]
    by_cases hc : c.len - 40 ≤ q
    · rw [if_pos ⟨hc, by omega⟩,
        getD_append_right (by simp only [List.length_take]; omega)]
      congr 1
      simp only [List.length_take]
      omega
    · rw [if_neg (by omega), hdata q hq2,
        getD_append_left (by simp only [List.length_take]; omega),
        getD_take_lt (by omega)]

/-- C7. For image data already aligned to 4096 bytes (and a surface size
not exceeding the stored data, as holds for well-formed surfaces),
writing emits the image data bytes, appends an extra 4096 bytes of zero
padding exactly when the trailing slack `len - unpadded_size` is smaller
than the 40-byte footer, and in all cases writes the 40-byte footer into
the final 40 bytes of the output. -/
theorem mibl_write_padding (sss : SurfaceSizeArgs → Nat) (m : Mibl)
    (hal : m.image_data.length % 4096 = 0)
    (hle : sss (surfaceSizeArgs m) ≤ m.image_data.length) :
    writeMibl sss m =
      (if m.image_data.length - sss (surfaceSizeArgs m) < 40 then
          m.image_data ++ List.replicate (4096 - 40) 0
        else m.image_data.take (m.image_data.length - 40)) ++ miblFooterBytes m.footer ∧
    (writeMibl sss m).length = m.image_data.length +
      (if m.image_data.length - sss (surfaceSizeArgs m) < 40 then 4096 else 0) := by
  have hfoot := miblFooterBytes_length m.footer
  by_cases hpad : m.image_data.length - sss (surfaceSizeArgs m) < 40
  · have hmain : writeMibl sss m =
        (m.image_data ++ List.replicate (4096 - 40) 0) ++ miblFooterBytes m.footer := by
      unfold writeMibl
      dsimp only
      rw [if_pos hpad]
      have hres := toBytes_footer_overwrite
        ((WCursor.empty.write m.image_data).write (List.replicate 4096 0))
        (miblFooterBytes m.footer) (m.image_data ++ List.replicate 4096 0) hfoot
        (by simp only [WCursor.write, WCursor.writeAt, WCursor.empty,
              List.length_replicate, List.length_append]
            omega)
        (by simp only [WCursor.write, WCursor.writeAt, WCursor.empty,
              List.length_replicate]
            omega)
        (by intro q hq
            simp only [WCursor.write, WCursor.writeAt, WCursor.empty,
              List.length_replicate] at hq ⊢
            by_cases h1 : m.image_data.length ≤ q
            · rw [if_pos ⟨by omega, by omega⟩, getD_append_right h1]
              simp only [getD_replicate_zero]
            · rw [if_neg (by omega), if_pos ⟨by omega, by omega⟩,
                getD_append_left (by omega)]
              simp only [Nat.sub_zero])
      rw [hres]
      have htake : (m.image_data ++ List.replicate 4096 0).take
          ((m.image_data ++ List.replicate 4096 (0 : Byte)).length - 40) =
          m.image_data ++ List.replicate (4096 - 40) 0 := by
        have hlen2 : (m.image_data ++ List.replicate 4096 (0 : Byte)).length - 40 =
            m.image_data.length + 4056 := by
          simp only [List.length_append, List.length_replicate]
          omega
        rw [hlen2, List.take_append, List.take_replicate]
        norm_num
      rw [htake]
    refine ⟨by rw [if_pos hpad]; exact hmain, ?_⟩
    rw [hmain, if_pos hpad]
    simp only [List.length_append, List.length_replicate, hfoot]
  · have h40 : 40 ≤ m.image_data.length := by omega
    have hmain : writeMibl sss m =
        m.image_data.take (m.image_data.length - 40) ++ miblFooterBytes m.footer := by
      unfold writeMibl
      dsimp only
      rw [if_neg hpad]
      have hres := toBytes_footer_overwrite (WCursor.empty.write m.image_data)
        (miblFooterBytes m.footer) m.image_data hfoot
        (by simp only [WCursor.write, WCursor.writeAt, WCursor.empty]
            omega)
        (by simp only [WCursor.write, WCursor.writeAt, WCursor.empty]
            omega)
        (by intro q hq
            simp only [WCursor.write, WCursor.writeAt, WCursor.empty] at hq ⊢
            rw [if_pos ⟨by omega, by omega⟩]
            simp only [Nat.sub_zero])
      rw [hres]
    refine ⟨by rw [if_neg hpad]; exact hmain, ?_⟩
    rw [hmain, if_neg hpad]
    simp only [List.length_append, List.length_take, hfoot]
    omega

theorem mibl_write_padding_witness :
    ((([] : List Byte).length % 4096 = 0 ∧
      (fun _ => 0 : SurfaceSizeArgs → Nat)
        (surfaceSizeArgs ⟨[], ⟨0, 0, 1, 1, 1, .D2, .R8Unorm, 1, 10001⟩⟩) ≤
        ([] : List Byte).length)) ∧
    writeMibl (fun _ => 0) ⟨[], ⟨0, 0, 1, 1, 1, .D2, .R8Unorm, 1, 10001⟩⟩ =
      (([] : List Byte) ++ List.replicate (4096 - 40) 0) ++
        miblFooterBytes ⟨0, 0, 1, 1, 1, .D2, .R8Unorm, 1, 10001⟩ := by
  have hal : (([] : List Byte)).length % 4096 = 0 := by decide
  have hle : (fun _ => 0 : SurfaceSizeArgs → Nat)
      (surfaceSizeArgs ⟨[], ⟨0, 0, 1, 1, 1, .D2, .R8Unorm, 1, 10001⟩⟩) ≤
      (([] : List Byte)).length := by decide
  refine ⟨⟨hal, hle⟩, ?_⟩
  have h := (mibl_write_padding (fun _ => 0)
    ⟨[], ⟨0, 0, 1, 1, 1, .D2, .R8Unorm, 1, 10001⟩⟩ hal hle).1
  have hcond : (([] : List Byte)).length - 0 < 40 := by decide
  rw [h, if_pos hcond]

/-! Vertex data encoding (`to_vertex_data` and its helpers in
`xc3_model/src/vertex.rs`). -/

/-- Little-endian serialization of a u16 value. -/
def encU16le (n : Nat) : List Byte := [n % 256, n / 256 % 256]

/-- Source `write_f32x3`: the f32 components' IEEE bytes (bit patterns
serialized little-endian). -/
def encF32x3 (v : Vec3B) : List Byte := encU32le v.1 ++ encU32le v.2.1 ++ encU32le v.2.2

/-- Source `write_f32x2`. -/
def encF32x2 (v : Vec2B) : List Byte := encU32le v.1 ++ encU32le v.2

/-- Source `write_u16x2`. -/
def encU16x2 (v : Nat × Nat) : List Byte := encU16le v.1 ++ encU16le v.2

/-- Source `write_u8x4`. -/
def encU8x4 (v : Nat × Nat × Nat × Nat) : List Byte :=
  [v.1 % 256, v.2.1 % 256, v.2.2.1 % 256, v.2.2.2 % 256]

/-- Rust `x as u8` for a float value (saturating, truncating toward zero;
exact rational model). -/
def qToU8 (x : ℚ) : Nat := if x < 0 then 0 else min 255 (Int.toNat ⌊x⌋)

/-- Rust `x as u16` for a float value. -/
def qToU16 (x : ℚ) : Nat := if x < 0 then 0 else min 65535 (Int.toNat ⌊x⌋)

/-- Rust `x as i8` reinterpreted as its storage byte. -/
def qToI8Byte (x : ℚ) : Nat :=
  let t : Int := if x < 0 then -((-x).floor) else x.floor
  let clamped : Int := if t < -128 then -128 else if 127 < t then 127 else t
  (clamped % 256).toNat

/-- Source `write_unorm8x4`: `(f * 255.0) as u8` per component. -/
def encUnorm8x4 (v : Vec4Q) : List Byte :=
  [qToU8 (v.1 * 255), qToU8 (v.2.1 * 255), qToU8 (v.2.2.1 * 255), qToU8 (v.2.2.2 * 255)]

/-- Source `write_unorm16x4`: `(f * 65535.0) as u16` per component. -/
def encUnorm16x4 (v : Vec4Q) : List Byte :=
  encU16le (qToU16 (v.1 * 65535)) ++ encU16le (qToU16 (v.2.1 * 65535)) ++
    encU16le (qToU16 (v.2.2.1 * 65535)) ++ encU16le (qToU16 (v.2.2.2 * 65535))

/-- Source `write_snorm8x4`: `(f * 127.0) as i8` per component. -/
def encSnorm8x4 (v : Vec4Q) : List Byte :=
  [qToI8Byte (v.1 * 127), qToI8Byte (v.2.1 * 127),
    qToI8Byte (v.2.2.1 * 127), qToI8Byte (v.2.2.2 * 127)]

/-- Source `write_data` loop: for each value, seek to
`offset + i * stride` and write its encoding. -/
def writeDataGo (enc : α → List Byte) (stride : Nat) :
    WCursor → Nat → List α → WCursor
  | c, _, [] => c
  | c, off, v :: vs => writeDataGo enc stride ((c.seekW off).write (enc v)) (off + stride) vs

def write_data (c : WCursor) (values : List α) (offset stride : Nat)
    (enc : α → List Byte) : WCursor :=
  writeDataGo enc stride c offset values

/-- Monotone frame: position stays at or beyond `B`, the length never
shrinks, and all content below `B` is untouched. Every write helper of
`to_vertex_data` keeps this for any `B` at or below the cursor position,
because each one writes only at or beyond the position it started at. -/
def Keeps (B : Nat) (c cf : WCursor) : Prop :=
  B ≤ cf.pos ∧ c.len ≤ cf.len ∧ ∀ q, q < B → cf.data q = c.data q

theorem Keeps.trans {B : Nat} {c1 c2 c3 : WCursor} (h1 : Keeps B c1 c2)
    (h2 : Keeps B c2 c3) : Keeps B c1 c3 :=
  ⟨h2.1, le_trans h1.2.1 h2.2.1, fun q hq => (h2.2.2 q hq).trans (h1.2.2 q hq)⟩

theorem keeps_refl {B : Nat} {c : WCursor} (h : B ≤ c.pos) : Keeps B c c :=
  ⟨h, le_refl _, fun _ _ => rfl⟩

theorem keeps_writeAt {B p : Nat} {c : WCursor} {bs : List Byte} (h : B ≤ p) :
    Keeps B c (c.writeAt p bs) := by
  refine ⟨by simp [WCursor.writeAt]; omega, by simp [WCursor.writeAt], fun q hq => ?_⟩
  simp only [WCursor.writeAt]
  rw [if_neg (by omega)]

theorem keeps_write {B : Nat} {c : WCursor} {bs : List Byte} (h : B ≤ c.pos) :
    Keeps B c (c.write bs) := keeps_writeAt h

theorem keeps_seekW {B p : Nat} {c : WCursor} (h : B ≤ p) : Keeps B c (c.seekW p) :=
  ⟨h, le_refl _, fun _ _ => rfl⟩

theorem keeps_writeDataGo {α : Type} {enc : α → List Byte} {stride B : Nat} :
    ∀ (values : List α) (c : WCursor) (off : Nat), B ≤ off → B ≤ c.pos →
      Keeps B c (writeDataGo enc stride c off values)
  | [], c, off, _, hpos => keeps_refl hpos
  | v :: vs, c, off, hoff, hpos => by
    have h1 : Keeps B c ((c.seekW off).write (enc v)) :=
      (keeps_seekW hoff).trans (keeps_write (by simpa [WCursor.seekW] using hoff))
    exact h1.trans (keeps_writeDataGo vs _ (off + stride) (by omega)
      (by simp [WCursor.write, WCursor.writeAt, WCursor.seekW]; omega))

theorem keeps_write_data {α : Type} {enc : α → List Byte} {stride B offset : Nat}
    {values : List α} {c : WCursor} (hoff : B ≤ offset) (hpos : B ≤ c.pos) :
    Keeps B c (write_data c values offset stride enc) :=
  keeps_writeDataGo values c offset hoff hpos

/-- Positions untouched by a strided write: below the start, past the last
element, or beyond the encoded size within a stride slot. -/
theorem writeDataGo_frame {α : Type} {enc : α → List Byte} {stride s : Nat}
    (hs : ∀ v, (enc v).length = s) (hss : s ≤ stride) :
    ∀ (values : List α) (c : WCursor) (off q : Nat),
      (q < off ∨ (off ≤ q ∧ s ≤ (q - off) % stride) ∨
        (off ≤ q ∧ values.length * stride ≤ q - off)) →
      (writeDataGo enc stride c off values).data q = c.data q
  | [], _, _, _, _ => rfl
  | v :: vs, c, off, q, h => by
    have hstride : 0 < stride ∨ stride = 0 := by omega
    have hhead : ((c.seekW off).write (enc v)).data q = c.data q := by
      simp only [WCursor.write, WCursor.writeAt, WCursor.seekW, hs]
      rw [if_neg ?_]
      rcases h with h | ⟨h1, h2⟩ | ⟨h1, h2⟩
      · omega
      · rcases Nat.lt_or_ge q (off + stride) with hlt | hge
        · have : (q - off) % stride = q - off := Nat.mod_eq_of_lt (by omega)
          omega
        · omega
      · have : 1 * stride ≤ q - off := by
          calc 1 * stride ≤ (vs.length + 1) * stride := by
                have := Nat.mul_le_mul_right stride (Nat.succ_le_succ (Nat.zero_le vs.length))
                simpa using this
            _ ≤ q - off := by simpa using h2
        omega
    rw [writeDataGo, writeDataGo_frame hs hss vs _ (off + stride) q ?_, hhead]
    rcases h with h | ⟨h1, h2⟩ | ⟨h1, h2⟩
    · left; omega
    · rcases Nat.lt_or_ge q (off + stride) with hlt | hge
      · left; omega
      · right; left
        refine ⟨by omega, ?_⟩
        have : q - off = (q - (off + stride)) + stride := by omega
        rw [this] at h2
        rwa [Nat.add_mod_right] at h2
    · rcases Nat.lt_or_ge q (off + stride) with hlt | hge
      · left; omega
      · right; right
        constructor
        · omega
        · have := h2
          simp only [List.length_cons] at this
          have h3 : (vs.length + 1) * stride = vs.length * stride + stride := by ring
          omega

/-- The byte each element write lands on: element `k`, byte `j`. -/
theorem writeDataGo_hit {α : Type} {enc : α → List Byte} {stride s : Nat}
    (hs : ∀ v, (enc v).length = s) (hss : s ≤ stride) :
    ∀ (values : List α) (c : WCursor) (off k j : Nat) (hk : k < values.length)
      (_hj : j < s),
      (writeDataGo enc stride c off values).data (off + k * stride + j) =
        (enc (values.get ⟨k, hk⟩)).getD j 0
  | [], _, _, _, _, hk, _ => by simp at hk
  | v :: vs, c, off, 0, j, hk, hj => by
    rw [writeDataGo, writeDataGo_frame hs hss vs _ (off + stride) (off + 0 * stride + j)
      (by left; omega)]
    simp only [WCursor.write, WCursor.writeAt, WCursor.seekW, hs]
    rw [if_pos ⟨by omega, by omega⟩]
    congr 1
    omega
  | v :: vs, c, off, k + 1, j, hk, hj => by
    rw [writeDataGo]
    have harith : off + (k + 1) * stride + j = (off + stride) + k * stride + j := by ring
    rw [harith, writeDataGo_hit hs hss vs _ (off + stride) k j (by simpa using hk) hj]
    rfl

/-- Source `AttributeData::data_type`. -/
def AttributeData.data_type : AttributeData → DataType
  | .Position _ => .Position
  | .Normal _ => .Normal
  | .Tangent _ => .Tangent
  | .TexCoord0 _ => .TexCoord0
  | .TexCoord1 _ => .TexCoord1
  | .TexCoord2 _ => .TexCoord2
  | .TexCoord3 _ => .TexCoord3
  | .TexCoord4 _ => .TexCoord4
  | .TexCoord5 _ => .TexCoord5
  | .TexCoord6 _ => .TexCoord6
  | .TexCoord7 _ => .TexCoord7
  | .TexCoord8 _ => .TexCoord8
  | .VertexColor _ => .VertexColor
  | .Blend _ => .Blend
  | .WeightIndex _ => .WeightIndex
  | .Position2 _ => .Position2
  | .Normal4 _ => .Normal4
  | .OldPosition _ => .OldPosition
  | .Tangent2 _ => .Tangent2
  | .SkinWeights _ => .SkinWeights
  | .SkinWeights2 _ => .SkinWeights2
  | .BoneIndices _ => .BoneIndices
  | .BoneIndices2 _ => .BoneIndices2

/-- Modelled from the spec: the per-kind byte sizes used by
`VertexAttribute::from(DataType)` (that `From` impl lives in the
`xc3_lib::vertex` module, which is not under `src/`): 3×f32 kinds are 12
bytes, 2×f32 kinds 8, byte-quadruple kinds 4, `skin_weights` 8 (4×u16),
`weight_index` 4 (2×u16). Reserved codes are never produced by
`AttributeData::data_type` and take size 0 here. -/
def DataType.data_size : DataType → Nat
  | .Position => 12
  | .SkinWeights2 => 12
  | .BoneIndices2 => 4
  | .WeightIndex => 4
  | .TexCoord0 | .TexCoord1 | .TexCoord2 | .TexCoord3 | .TexCoord4 => 8
  | .TexCoord5 | .TexCoord6 | .TexCoord7 | .TexCoord8 => 8
  | .Blend => 4
  | .VertexColor => 4
  | .Normal => 4
  | .Tangent => 4
  | .Normal2 => 4
  | .Position2 => 12
  | .Normal4 => 4
  | .OldPosition => 12
  | .Tangent2 => 4
  | .SkinWeights => 8
  | .BoneIndices => 4
  | _ => 0

/-- `a.data_type().into()` in `write_vertex_buffer`. -/
def vertexAttributeOf (a : AttributeData) : VertexAttribute :=
  ⟨a.data_type, a.data_type.data_size⟩

/-- Source `AttributeData::len`. -/
def AttributeData.len : AttributeData → Nat
  | .Position v => v.length
  | .Normal v => v.length
  | .Tangent v => v.length
  | .TexCoord0 v => v.length
  | .TexCoord1 v => v.length
  | .TexCoord2 v => v.length
  | .TexCoord3 v => v.length
  | .TexCoord4 v => v.length
  | .TexCoord5 v => v.length
  | .TexCoord6 v => v.length
  | .TexCoord7 v => v.length
  | .TexCoord8 v => v.length
  | .VertexColor v => v.length
  | .Blend v => v.length
  | .WeightIndex v => v.length
  | .Position2 v => v.length
  | .Normal4 v => v.length
  | .OldPosition v => v.length
  | .Tangent2 v => v.length
  | .SkinWeights v => v.length
  | .SkinWeights2 v => v.length
  | .BoneIndices v => v.length
  | .BoneIndices2 v => v.length

/-- Source `AttributeData::write`: dispatch to the per-kind writer. -/
def AttributeData.writeA (a : AttributeData) (c : WCursor) (offset stride : Nat) : WCursor :=
  match a with
  | .Position values => write_data c values offset stride encF32x3
  | .Normal values => write_data c values offset stride encSnorm8x4
  | .Tangent values => write_data c values offset stride encSnorm8x4
  | .TexCoord0 values => write_data c values offset stride encF32x2
  | .TexCoord1 values => write_data c values offset stride encF32x2
  | .TexCoord2 values => write_data c values offset stride encF32x2
  | .TexCoord3 values => write_data c values offset stride encF32x2
  | .TexCoord4 values => write_data c values offset stride encF32x2
  | .TexCoord5 values => write_data c values offset stride encF32x2
  | .TexCoord6 values => write_data c values offset stride encF32x2
  | .TexCoord7 values => write_data c values offset stride encF32x2
  | .TexCoord8 values => write_data c values offset stride encF32x2
  | .VertexColor values => write_data c values offset stride encUnorm8x4
  | .Blend values => write_data c values offset stride encUnorm8x4
  | .WeightIndex values => write_data c values offset stride encU16x2
  | .Position2 values => write_data c values offset stride encF32x3
  | .Normal4 values => write_data c values offset stride encUnorm8x4
  | .OldPosition values => write_data c values offset stride encF32x3
  | .Tangent2 values => write_data c values offset stride encUnorm8x4
  | .SkinWeights values => write_data c values offset stride encUnorm16x4
  | .SkinWeights2 values => write_data c values offset stride encF32x3
  | .BoneIndices values => write_data c values offset stride encU8x4
  | .BoneIndices2 values => write_data c values offset stride encU8x4

/-- Modelled from the spec: `xc3_lib::vertex::VertexBufferDescriptor`
(data offset, vertex count, stride, attribute list; opaque `unk` fields). -/
structure VertexBufferDescriptor where
  data_offset : Nat
  vertex_count : Nat
  vertex_size : Nat
  attributes : List VertexAttribute
  unk1 : Nat
  unk2 : Nat
  unk3 : Nat
  deriving DecidableEq, Repr

/-- The per-attribute loop of `write_vertex_buffer`: write each
attribute's column at the running offset, advancing by its size. -/
def writeAttrsGo (vertex_size : Nat) : WCursor → Nat → List AttributeData → WCursor
  | c, _, [] => c
  | c, off, a :: rest =>
    writeAttrsGo vertex_size (a.writeA c off vertex_size)
      (off + a.data_type.data_size) rest

/-- Source `write_vertex_buffer`: descriptor plus interleaved column
writes; indexing `attribute_data[0]` on an empty list is a panic
(`none`). -/
def write_vertex_buffer (c : WCursor) (attribute_data : List AttributeData) :
    Option (VertexBufferDescriptor × WCursor) :=
  match attribute_data with
  | [] => none
  | a0 :: _ =>
    some (⟨c.pos, a0.len, sizeSum (attribute_data.map vertexAttributeOf),
      attribute_data.map vertexAttributeOf, 0, 0, 0⟩,
      writeAttrsGo (sizeSum (attribute_data.map vertexAttributeOf)) c c.pos attribute_data)

/-- Source `align`: zero-pad the stream to the next multiple of `a`. -/
def alignW (c : WCursor) (a : Nat) : WCursor :=
  c.write (List.replicate ((c.pos + a - 1) / a * a - c.pos) 0)

theorem keeps_writeA {B offset stride : Nat} {c : WCursor} (a : AttributeData)
    (hoff : B ≤ offset) (hpos : B ≤ c.pos) : Keeps B c (a.writeA c offset stride) := by
  cases a <;> exact keeps_write_data hoff hpos

theorem keeps_writeAttrsGo {B vertex_size : Nat} :
    ∀ (attrs : List AttributeData) (c : WCursor) (off : Nat), B ≤ off → B ≤ c.pos →
      Keeps B c (writeAttrsGo vertex_size c off attrs)
  | [], _, _, _, hpos => keeps_refl hpos
  | a :: rest, c, off, hoff, hpos => by
    have h1 := @keeps_writeA B off vertex_size c a hoff hpos
    exact h1.trans (keeps_writeAttrsGo rest _ (off + a.data_type.data_size)
      (by omega) h1.1)

theorem keeps_write_vertex_buffer {B : Nat} {c cf : WCursor}
    {attrs : List AttributeData} {d : VertexBufferDescriptor}
    (h : write_vertex_buffer c attrs = some (d, cf)) (hpos : B ≤ c.pos) :
    Keeps B c cf := by
  match attrs, h with
  | a0 :: rest, h =>
    injection h with h
    injection h with _ h2
    rw [← h2]
    exact keeps_writeAttrsGo _ c c.pos hpos hpos

theorem keeps_alignW {B a : Nat} {c : WCursor} (h : B ≤ c.pos) :
    Keeps B c (alignW c a) := keeps_write h

theorem encU32le_length (n : Nat) : (encU32le n).length = 4 := rfl

theorem encF32x3_length (v : Vec3B) : (encF32x3 v).length = 12 := rfl

theorem encUnorm8x4_length (v : Vec4Q) : (encUnorm8x4 v).length = 4 := rfl

/-- The first `find_map` of `write_morph_default_target`: the first
`Position2` attribute's values. -/
def findPosition2 : List AttributeData → Option (List Vec3B)
  | [] => none
  | .Position2 values :: _ => some values
  | _ :: rest => findPosition2 rest

/-- The second `find_map`: the first `Normal4` attribute's values. -/
def findNormal4 : List AttributeData → Option (List Vec4Q)
  | [] => none
  | .Normal4 values :: _ => some values
  | _ :: rest => findNormal4 rest

/-- The third `find_map`: the first `Tangent2` attribute's values. -/
def findTangent2 : List AttributeData → Option (List Vec4Q)
  | [] => none
  | .Tangent2 values :: _ => some values
  | _ :: rest => findTangent2 rest

/-- Source `write_morph_default_target`: copy the blend target's
position2/normal4/tangent2 values at the modified indices into a 32-byte
strided layout (positions at +0, zero u32 at +12, normal4 at +16, tangent2
at +20, zero u32 at +24, the vertex index at +28). A missing blend
attribute (`unwrap`) or out-of-range vertex index (`values[i]`) is a Rust
panic, modelled as `none`. -/
def write_morph_default_target (c : WCursor) (modified_indices : List Nat)
    (buffer : VertexBuffer) : Option (LibMorphTarget × WCursor) :=
  match findPosition2 buffer.morph_blend_target with
  | none => none
  | some pvals =>
    match modified_indices.mapM (fun i => pvals.get? i) with
    | none => none
    | some positions =>
      let c1 := write_data c positions c.pos 32 encF32x3
      let c2 := write_data c1 (List.replicate modified_indices.length 0) (c.pos + 12) 32 encU32le
      match findNormal4 buffer.morph_blend_target with
      | none => none
      | some nvals =>
        match modified_indices.mapM (fun i => nvals.get? i) with
        | none => none
        | some normals =>
          let c3 := write_data c2 normals (c.pos + 16) 32 encUnorm8x4
          match findTangent2 buffer.morph_blend_target with
          | none => none
          | some tvals =>
            match modified_indices.mapM (fun i => tvals.get? i) with
            | none => none
            | some tangents =>
              let c4 := write_data c3 tangents (c.pos + 20) 32 encUnorm8x4
              let c5 := write_data c4 (List.replicate modified_indices.length 0)
                (c.pos + 24) 32 encU32le
              let c6 := write_data c5 modified_indices (c.pos + 28) 32 encU32le
              some (⟨c.pos, modified_indices.length, 32, ⟨0, false, true, false, 0⟩⟩, c6)

/-- Source `write_morph_param_target`: the same 32-byte layout with the
sparse deltas of one param target. -/
def write_morph_param_target (c : WCursor) (mt : MorphTarget) :
    LibMorphTarget × WCursor :=
  let c1 := write_data c mt.position_deltas c.pos 32 encF32x3
  let c2 := write_data c1 (List.replicate mt.position_deltas.length 0) (c.pos + 12) 32 encU32le
  let c3 := write_data c2 mt.normals (c.pos + 16) 32 encUnorm8x4
  let c4 := write_data c3 mt.tangents (c.pos + 20) 32 encUnorm8x4
  let c5 := write_data c4 (List.replicate mt.position_deltas.length 0) (c.pos + 24) 32 encU32le
  let c6 := write_data c5 mt.vertex_indices (c.pos + 28) 32 encU32le
  (⟨c.pos, mt.position_deltas.length, 32, ⟨0, false, false, true, 0⟩⟩, c6)

/-- Source `write_morph_blend_target`: a full vertex buffer write with the
blend flag. -/
def write_morph_blend_target (c : WCursor) (blend_target : List AttributeData) :
    Option (LibMorphTarget × WCursor) :=
  (write_vertex_buffer c blend_target).map fun dc =>
    (⟨dc.1.data_offset, dc.1.vertex_count, dc.1.vertex_size, ⟨0, true, false, false, 0⟩⟩, dc.2)

theorem mapM_getq_eq {α : Type} (l : List α) (d : α) :
    ∀ (U : List Nat), (∀ i ∈ U, i < l.length) →
      U.mapM (fun i => l.get? i) = some (U.map (fun i => l.getD i d))
  | [], _ => rfl
  | a :: t, h => by
    have ha : a < l.length := h a (List.mem_cons_self a t)
    have hget : l.get? a = some (l.getD a d) := by
      rw [List.getD_eq_getElem _ _ ha, List.get?_eq_getElem?, List.getElem?_eq_getElem ha]
    rw [List.mapM_cons, hget, mapM_getq_eq l d t (fun i hi => h i (List.mem_cons_of_mem a hi))]
    rfl

/-- The 32-byte slot layout shared by the default and param morph target
writers: position (3 f32), 4 zero bytes, normal4 unorm8x4, tangent2
unorm8x4, 4 zero bytes, u32 vertex index. -/
def vertexBytes32 (p : Vec3B) (n t : Vec4Q) (i : Nat) : List Byte :=
  encF32x3 p ++ List.replicate 4 0 ++ encUnorm8x4 n ++ encUnorm8x4 t ++
    List.replicate 4 0 ++ encU32le i

theorem vertexBytes32_length (p : Vec3B) (n t : Vec4Q) (i : Nat) :
    (vertexBytes32 p n t i).length = 32 := by
  simp [vertexBytes32, encF32x3, encUnorm8x4, encU32le]

theorem writeDataGo_pos {α : Type} {enc : α → List Byte} {stride s : Nat}
    (hs : ∀ v, (enc v).length = s) :
    ∀ (values : List α) (c : WCursor) (off : Nat), values ≠ [] →
      (writeDataGo enc stride c off values).pos = off + (values.length - 1) * stride + s
  | [], _, _, h => absurd rfl h
  | [v], c, off, _ => by
    simp [writeDataGo, WCursor.write, WCursor.writeAt, WCursor.seekW, hs]
  | v :: w :: vs, c, off, _ => by
    rw [writeDataGo, writeDataGo_pos hs (w :: vs) _ (off + stride) (by simp)]
    simp only [List.length_cons, Nat.add_sub_cancel]
    ring

theorem writeDataGo_pos_le_len {α : Type} {enc : α → List Byte} {stride : Nat} :
    ∀ (values : List α) (c : WCursor) (off : Nat), values ≠ [] →
      (writeDataGo enc stride c off values).pos ≤ (writeDataGo enc stride c off values).len
  | [], _, _, h => absurd rfl h
  | [v], c, off, _ => by
    simp [writeDataGo, WCursor.write, WCursor.writeAt, WCursor.seekW]
  | v :: w :: vs, c, off, _ =>
    writeDataGo_pos_le_len (w :: vs) _ (off + stride) (by simp)

/-- Behavior of the six strided `write_data` calls shared by the default
and param morph target writers: final position, length growth, frame below
the start, and the 32-byte content of each slot. -/
theorem morph_chain_spec (c : WCursor) (P : List Vec3B) (N T : List Vec4Q) (U : List Nat)
    (hP : P.length = U.length) (hN : N.length = U.length) (hT : T.length = U.length) :
    (write_data (write_data (write_data (write_data (write_data (write_data
        c P c.pos 32 encF32x3)
        (List.replicate U.length 0) (c.pos + 12) 32 encU32le)
        N (c.pos + 16) 32 encUnorm8x4)
        T (c.pos + 20) 32 encUnorm8x4)
        (List.replicate U.length 0) (c.pos + 24) 32 encU32le)
        U (c.pos + 28) 32 encU32le).pos = c.pos + 32 * U.length ∧
    c.len ≤ (write_data (write_data (write_data (write_data (write_data (write_data
        c P c.pos 32 encF32x3)
        (List.replicate U.length 0) (c.pos + 12) 32 encU32le)
        N (c.pos + 16) 32 encUnorm8x4)
        T (c.pos + 20) 32 encUnorm8x4)
        (List.replicate U.length 0) (c.pos + 24) 32 encU32le)
        U (c.pos + 28) 32 encU32le).len ∧
    (U ≠ [] → c.pos + 32 * U.length ≤
      (write_data (write_data (write_data (write_data (write_data (write_data
        c P c.pos 32 encF32x3)
        (List.replicate U.length 0) (c.pos + 12) 32 encU32le)
        N (c.pos + 16) 32 encUnorm8x4)
        T (c.pos + 20) 32 encUnorm8x4)
        (List.replicate U.length 0) (c.pos + 24) 32 encU32le)
        U (c.pos + 28) 32 encU32le).len) ∧
    (∀ q, q < c.pos →
      (write_data (write_data (write_data (write_data (write_data (write_data
        c P c.pos 32 encF32x3)
        (List.replicate U.length 0) (c.pos + 12) 32 encU32le)
        N (c.pos + 16) 32 encUnorm8x4)
        T (c.pos + 20) 32 encUnorm8x4)
        (List.replicate U.length 0) (c.pos + 24) 32 encU32le)
        U (c.pos + 28) 32 encU32le).data q = c.data q) ∧
    ∀ k, k < U.length → ∀ j, j < 32 →
      (write_data (write_data (write_data (write_data (write_data (write_data
        c P c.pos 32 encF32x3)
        (List.replicate U.length 0) (c.pos + 12) 32 encU32le)
        N (c.pos + 16) 32 encUnorm8x4)
        T (c.pos + 20) 32 encUnorm8x4)
        (List.replicate U.length 0) (c.pos + 24) 32 encU32le)
        U (c.pos + 28) 32 encU32le).data (c.pos + 32 * k + j) =
        (vertexBytes32 (P.getD k (0, 0, 0)) (N.getD k (0, 0, 0, 0)) (T.getD k (0, 0, 0, 0))
          (U.getD k 0)).getD j 0 := by
  have hsF : ∀ v : Vec3B, (encF32x3 v).length = 12 := encF32x3_length
  have hs4 : ∀ n : Nat, (encU32le n).length = 4 := encU32le_length
  have hsU : ∀ v : Vec4Q, (encUnorm8x4 v).length = 4 := encUnorm8x4_length
  simp only [write_data]
  set Z : List Nat := List.replicate U.length 0 with hZ
  have hZlen : Z.length = U.length := by rw [hZ, List.length_replicate]
  set c1 := writeDataGo encF32x3 32 c c.pos P with hc1
  set c2 := writeDataGo encU32le 32 c1 (c.pos + 12) Z with hc2
  set c3 := writeDataGo encUnorm8x4 32 c2 (c.pos + 16) N with hc3
  set c4 := writeDataGo encUnorm8x4 32 c3 (c.pos + 20) T with hc4
  set c5 := writeDataGo encU32le 32 c4 (c.pos + 24) Z with hc5
  set c6 := writeDataGo encU32le 32 c5 (c.pos + 28) U with hc6
  by_cases hUnil : U = []
  · subst hUnil
    have hPnil : P = [] := List.length_eq_zero.mp (by simpa using hP)
    have hNnil : N = [] := List.length_eq_zero.mp (by simpa using hN)
    have hTnil : T = [] := List.length_eq_zero.mp (by simpa using hT)
    have hZnil : Z = [] := by simp [hZ]
    have hall : c6 = c := by
      rw [hc6, hc5, hc4, hc3, hc2, hc1, hPnil, hNnil, hTnil, hZnil]
      rfl
    rw [hall]
    refine ⟨by simp, le_refl _, fun h => absurd rfl h, fun _ _ => rfl, ?_⟩
    intro k hk
    simp at hk
  · have hkeeps : Keeps c.pos c c6 := by
      have k1 : Keeps c.pos c c1 := keeps_writeDataGo P c c.pos (le_refl _) (le_refl _)
      have k2 : Keeps c.pos c1 c2 := keeps_writeDataGo Z c1 (c.pos + 12) (by omega) k1.1
      have k3 : Keeps c.pos c2 c3 := keeps_writeDataGo N c2 (c.pos + 16) (by omega) k2.1
      have k4 : Keeps c.pos c3 c4 := keeps_writeDataGo T c3 (c.pos + 20) (by omega) k3.1
      have k5 : Keeps c.pos c4 c5 := keeps_writeDataGo Z c4 (c.pos + 24) (by omega) k4.1
      have k6 : Keeps c.pos c5 c6 := keeps_writeDataGo U c5 (c.pos + 28) (by omega) k5.1
      exact ((((k1.trans k2).trans k3).trans k4).trans k5).trans k6
    have hpos : c6.pos = c.pos + 32 * U.length := by
      rw [hc6, writeDataGo_pos hs4 U c5 (c.pos + 28) hUnil]
      have hlen1 : 1 ≤ U.length := by
        cases U with
        | nil => exact absurd rfl hUnil
        | cons _ _ => simp
      omega
    have hlen : c.pos + 32 * U.length ≤ c6.len := by
      have := @writeDataGo_pos_le_len Nat encU32le 32 U c5 (c.pos + 28) hUnil
      rw [← hc6] at this
      omega
    refine ⟨hpos, hkeeps.2.1, fun _ => hlen, hkeeps.2.2, ?_⟩
    intro k hk j hj
    have hL : ∀ (p : Vec3B) (n t : Vec4Q),
        (encF32x3 p ++ List.replicate 4 0 ++ encUnorm8x4 n ++ encUnorm8x4 t ++
          List.replicate 4 0).length = 28 := by
      intro p n t
      simp [encF32x3, encUnorm8x4, encU32le]
    have hL4 : ∀ (p : Vec3B) (n t : Vec4Q),
        (encF32x3 p ++ List.replicate 4 0 ++ encUnorm8x4 n ++ encUnorm8x4 t).length = 24 := by
      intro p n t
      simp [encF32x3, encUnorm8x4, encU32le]
    have hL3 : ∀ (p : Vec3B) (n : Vec4Q),
        (encF32x3 p ++ List.replicate 4 0 ++ encUnorm8x4 n).length = 20 := by
      intro p n
      simp [encF32x3, encUnorm8x4, encU32le]
    have hL2 : ∀ p : Vec3B, (encF32x3 p ++ List.replicate 4 0).length = 16 := by
      intro p
      simp [encF32x3, encU32le]
    rcases Nat.lt_or_ge j 12 with h12 | h12
    · have f6 : c6.data (c.pos + 32 * k + j) = c5.data (c.pos + 32 * k + j) := by
        rw [hc6]
        exact writeDataGo_frame hs4 (by omega) U c5 (c.pos + 28) _ (by omega)
      have f5 : c5.data (c.pos + 32 * k + j) = c4.data (c.pos + 32 * k + j) := by
        rw [hc5]
        exact writeDataGo_frame hs4 (by omega) Z c4 (c.pos + 24) _ (by omega)
      have f4 : c4.data (c.pos + 32 * k + j) = c3.data (c.pos + 32 * k + j) := by
        rw [hc4]
        exact writeDataGo_frame hsU (by omega) T c3 (c.pos + 20) _ (by omega)
      have f3 : c3.data (c.pos + 32 * k + j) = c2.data (c.pos + 32 * k + j) := by
        rw [hc3]
        exact writeDataGo_frame hsU (by omega) N c2 (c.pos + 16) _ (by omega)
      have f2 : c2.data (c.pos + 32 * k + j) = c1.data (c.pos + 32 * k + j) := by
        rw [hc2]
        exact writeDataGo_frame hs4 (by omega) Z c1 (c.pos + 12) _ (by omega)
      have hkP : k < P.length := by omega
      have e : c.pos + 32 * k + j = c.pos + k * 32 + j := by ring
      have hit : c1.data (c.pos + k * 32 + j) = (encF32x3 (P.get ⟨k, hkP⟩)).getD j 0 := by
        rw [hc1]
        exact writeDataGo_hit hsF (by omega) P c c.pos k j hkP h12
      rw [f6, f5, f4, f3, f2, e, hit]
      rw [vertexBytes32, getD_append_left (by rw [hL]; omega),
        getD_append_left (by rw [hL4]; omega), getD_append_left (by rw [hL3]; omega),
        getD_append_left (by rw [hL2]; omega), getD_append_left (by rw [hsF]; omega)]
      congr 2
      rw [List.getD_eq_getElem _ _ hkP, List.get_eq_getElem]
    rcases Nat.lt_or_ge j 16 with h16 | h16
    · have f6 : c6.data (c.pos + 32 * k + j) = c5.data (c.pos + 32 * k + j) := by
        rw [hc6]
        exact writeDataGo_frame hs4 (by omega) U c5 (c.pos + 28) _ (by omega)
      have f5 : c5.data (c.pos + 32 * k + j) = c4.data (c.pos + 32 * k + j) := by
        rw [hc5]
        exact writeDataGo_frame hs4 (by omega) Z c4 (c.pos + 24) _ (by omega)
      have f4 : c4.data (c.pos + 32 * k + j) = c3.data (c.pos + 32 * k + j) := by
        rw [hc4]
        exact writeDataGo_frame hsU (by omega) T c3 (c.pos + 20) _ (by omega)
      have f3 : c3.data (c.pos + 32 * k + j) = c2.data (c.pos + 32 * k + j) := by
        rw [hc3]
        exact writeDataGo_frame hsU (by omega) N c2 (c.pos + 16) _ (by omega)
      have hkZ : k < Z.length := by omega
      have e : c.pos + 32 * k + j = (c.pos + 12) + k * 32 + (j - 12) := by omega
      have hit : c2.data ((c.pos + 12) + k * 32 + (j - 12)) =
          (encU32le (Z.get ⟨k, hkZ⟩)).getD (j - 12) 0 := by
        rw [hc2]
        exact writeDataGo_hit hs4 (by omega) Z c1 (c.pos + 12) k (j - 12) hkZ (by omega)
      have hZk : Z.get ⟨k, hkZ⟩ = 0 := by
        simp [hZ]
      rw [f6, f5, f4, f3, e, hit, hZk]
      rw [vertexBytes32, getD_append_left (by rw [hL]; omega),
        getD_append_left (by rw [hL4]; omega), getD_append_left (by rw [hL3]; omega),
        getD_append_left (by rw [hL2]; omega),
        getD_append_right (by rw [hsF]; omega)]
      have harg : j - (encF32x3 (P.getD k (0, 0, 0))).length = j - 12 := by
        rw [hsF]
      rw [harg, getD_replicate_zero]
      have h0 : encU32le 0 = List.replicate 4 0 := rfl
      rw [h0, getD_replicate_zero]
    rcases Nat.lt_or_ge j 20 with h20 | h20
    · have f6 : c6.data (c.pos + 32 * k + j) = c5.data (c.pos + 32 * k + j) := by
        rw [hc6]
        exact writeDataGo_frame hs4 (by omega) U c5 (c.pos + 28) _ (by omega)
      have f5 : c5.data (c.pos + 32 * k + j) = c4.data (c.pos + 32 * k + j) := by
        rw [hc5]
        exact writeDataGo_frame hs4 (by omega) Z c4 (c.pos + 24) _ (by omega)
      have f4 : c4.data (c.pos + 32 * k + j) = c3.data (c.pos + 32 * k + j) := by
        rw [hc4]
        exact writeDataGo_frame hsU (by omega) T c3 (c.pos + 20) _ (by omega)
      have hkN : k < N.length := by omega
      have e : c.pos + 32 * k + j = (c.pos + 16) + k * 32 + (j - 16) := by omega
      have hit : c3.data ((c.pos + 16) + k * 32 + (j - 16)) =
          (encUnorm8x4 (N.get ⟨k, hkN⟩)).getD (j - 16) 0 := by
        rw [hc3]
        exact writeDataGo_hit hsU (by omega) N c2 (c.pos + 16) k (j - 16) hkN (by omega)
      rw [f6, f5, f4, e, hit]
      rw [vertexBytes32, getD_append_left (by rw [hL]; omega),
        getD_append_left (by rw [hL4]; omega), getD_append_left (by rw [hL3]; omega),
        getD_append_right (by rw [hL2]; omega)]
      have harg : j - (encF32x3 (P.getD k (0, 0, 0)) ++
          List.replicate 4 0).length = j - 16 := by
        rw [hL2]
      rw [harg]
      congr 2
      rw [List.getD_eq_getElem _ _ hkN, List.get_eq_getElem]
    rcases Nat.lt_or_ge j 24 with h24 | h24
    · have f6 : c6.data (c.pos + 32 * k + j) = c5.data (c.pos + 32 * k + j) := by
        rw [hc6]
        exact writeDataGo_frame hs4 (by omega) U c5 (c.pos + 28) _ (by omega)
      have f5 : c5.data (c.pos + 32 * k + j) = c4.data (c.pos + 32 * k + j) := by
        rw [hc5]
        exact writeDataGo_frame hs4 (by omega) Z c4 (c.pos + 24) _ (by omega)
      have hkT : k < T.length := by omega
      have e : c.pos + 32 * k + j = (c.pos + 20) + k * 32 + (j - 20) := by omega
      have hit : c4.data ((c.pos + 20) + k * 32 + (j - 20)) =
          (encUnorm8x4 (T.get ⟨k, hkT⟩)).getD (j - 20) 0 := by
        rw [hc4]
        exact writeDataGo_hit hsU (by omega) T c3 (c.pos + 20) k (j - 20) hkT (by omega)
      rw [f6, f5, e, hit]
      rw [vertexBytes32, getD_append_left (by rw [hL]; omega),
        getD_append_left (by rw [hL4]; omega),
        getD_append_right (by rw [hL3]; omega)]
      have harg : j - (encF32x3 (P.getD k (0, 0, 0)) ++ List.replicate 4 0 ++
          encUnorm8x4 (N.getD k (0, 0, 0, 0))).length = j - 20 := by
        rw [hL3]
      rw [harg]
      congr 2
      rw [List.getD_eq_getElem _ _ hkT, List.get_eq_getElem]
    rcases Nat.lt_or_ge j 28 with h28 | h28
    · have f6 : c6.data (c.pos + 32 * k + j) = c5.data (c.pos + 32 * k + j) := by
        rw [hc6]
        exact writeDataGo_frame hs4 (by omega) U c5 (c.pos + 28) _ (by omega)
      have hkZ : k < Z.length := by omega
      have e : c.pos + 32 * k + j = (c.pos + 24) + k * 32 + (j - 24) := by omega
      have hit : c5.data ((c.pos + 24) + k * 32 + (j - 24)) =
          (encU32le (Z.get ⟨k, hkZ⟩)).getD (j - 24) 0 := by
        rw [hc5]
        exact writeDataGo_hit hs4 (by omega) Z c4 (c.pos + 24) k (j - 24) hkZ (by omega)
      have hZk : Z.get ⟨k, hkZ⟩ = 0 := by
        simp [hZ]
      rw [f6, e, hit, hZk]
      rw [vertexBytes32, getD_append_left (by rw [hL]; omega),
        getD_append_right (by rw [hL4]; omega)]
      have harg : j - (encF32x3 (P.getD k (0, 0, 0)) ++ List.replicate 4 0 ++
          encUnorm8x4 (N.getD k (0, 0, 0, 0)) ++
          encUnorm8x4 (T.getD k (0, 0, 0, 0))).length = j - 24 := by
        rw [hL4]
      rw [harg, getD_replicate_zero]
      have h0 : encU32le 0 = List.replicate 4 0 := rfl
      rw [h0, getD_replicate_zero]
    · have e : c.pos + 32 * k + j = (c.pos + 28) + k * 32 + (j - 28) := by omega
      have hit : c6.data ((c.pos + 28) + k * 32 + (j - 28)) =
          (encU32le (U.get ⟨k, hk⟩)).getD (j - 28) 0 := by
        rw [hc6]
        exact writeDataGo_hit hs4 (by omega) U c5 (c.pos + 28) k (j - 28) hk (by omega)
      rw [e, hit]
      rw [vertexBytes32, getD_append_right (by rw [hL]; omega)]
      have harg : j - (encF32x3 (P.getD k (0, 0, 0)) ++ List.replicate 4 0 ++
          encUnorm8x4 (N.getD k (0, 0, 0, 0)) ++ encUnorm8x4 (T.getD k (0, 0, 0, 0)) ++
          List.replicate 4 0).length = j - 28 := by
        rw [hL]
      have hgU : U.getD k 0 = U.get ⟨k, hk⟩ := by
        rw [List.getD_eq_getElem _ _ hk, List.get_eq_getElem]
      rw [harg, hgU]

/-- Success-path behavior of `write_morph_default_target`: the descriptor
(offset = starting position, count = |U|, stride 32, "default" flags), the
final position, length growth, the untouched prefix, and the per-slot
bytes copied from the blend target at the union indices. -/
theorem write_morph_default_target_spec (c : WCursor) (U : List Nat) (b : VertexBuffer)
    (pvs : List Vec3B) (nvs tvs : List Vec4Q)
    (hp : findPosition2 b.morph_blend_target = some pvs)
    (hn : findNormal4 b.morph_blend_target = some nvs)
    (ht : findTangent2 b.morph_blend_target = some tvs)
    (hcov : ∀ i ∈ U, i < pvs.length ∧ i < nvs.length ∧ i < tvs.length) :
    ∃ cf, write_morph_default_target c U b =
        some (⟨c.pos, U.length, 32, ⟨0, false, true, false, 0⟩⟩, cf) ∧
      cf.pos = c.pos + 32 * U.length ∧
      c.len ≤ cf.len ∧
      (U ≠ [] → c.pos + 32 * U.length ≤ cf.len) ∧
      (∀ q, q < c.pos → cf.data q = c.data q) ∧
      ∀ k, k < U.length → ∀ j, j < 32 →
        cf.data (c.pos + 32 * k + j) =
          (vertexBytes32 (pvs.getD (U.getD k 0) (0, 0, 0))
            (nvs.getD (U.getD k 0) (0, 0, 0, 0))
            (tvs.getD (U.getD k 0) (0, 0, 0, 0)) (U.getD k 0)).getD j 0 := by
  have hmp := mapM_getq_eq pvs (0, 0, 0) U (fun i hi => (hcov i hi).1)
  have hmn := mapM_getq_eq nvs (0, 0, 0, 0) U (fun i hi => (hcov i hi).2.1)
  have hmt := mapM_getq_eq tvs (0, 0, 0, 0) U (fun i hi => (hcov i hi).2.2)
  unfold write_morph_default_target
  rw [hp]
  dsimp only
  rw [hmp]
  dsimp only
  rw [hn]
  dsimp only
  rw [hmn]
  dsimp only
  rw [ht]
  dsimp only
  rw [hmt]
  dsimp only
  have hchain := morph_chain_spec c (U.map fun i => pvs.getD i (0, 0, 0))
    (U.map fun i => nvs.getD i (0, 0, 0, 0)) (U.map fun i => tvs.getD i (0, 0, 0, 0)) U
    (List.length_map _ _) (List.length_map _ _) (List.length_map _ _)
  obtain ⟨hpos, hlen, hlen2, hframe, hregion⟩ := hchain
  refine ⟨_, rfl, hpos, hlen, hlen2, hframe, ?_⟩
  intro k hk j hj
  rw [hregion k hk j hj]
  have hmapP : (U.map fun i => pvs.getD i (0, 0, 0)).getD k (0, 0, 0) =
      pvs.getD (U.getD k 0) (0, 0, 0) := by
    rw [List.getD_eq_getElem _ _ (by simpa using hk), List.getElem_map,
      List.getD_eq_getElem _ _ hk]
  have hmapN : (U.map fun i => nvs.getD i (0, 0, 0, 0)).getD k (0, 0, 0, 0) =
      nvs.getD (U.getD k 0) (0, 0, 0, 0) := by
    rw [List.getD_eq_getElem _ _ (by simpa using hk), List.getElem_map,
      List.getD_eq_getElem _ _ hk]
  have hmapT : (U.map fun i => tvs.getD i (0, 0, 0, 0)).getD k (0, 0, 0, 0) =
      tvs.getD (U.getD k 0) (0, 0, 0, 0) := by
    rw [List.getD_eq_getElem _ _ (by simpa using hk), List.getElem_map,
      List.getD_eq_getElem _ _ hk]
  rw [hmapP, hmapN, hmapT]

theorem keeps_write_morph_param_target {B : Nat} {c : WCursor} (mt : MorphTarget)
    (hB : B ≤ c.pos) : Keeps B c (write_morph_param_target c mt).2 := by
  unfold write_morph_param_target
  dsimp only
  have k1 : Keeps B c (write_data c mt.position_deltas c.pos 32 encF32x3) :=
    keeps_write_data hB hB
  have k2 := @keeps_write_data Nat encU32le 32 B (c.pos + 12)
    (List.replicate mt.position_deltas.length 0) _ (by omega) k1.1
  have k3 := @keeps_write_data Vec4Q encUnorm8x4 32 B (c.pos + 16)
    mt.normals _ (by omega) (k1.trans k2).1
  have k4 := @keeps_write_data Vec4Q encUnorm8x4 32 B (c.pos + 20)
    mt.tangents _ (by omega) ((k1.trans k2).trans k3).1
  have k5 := @keeps_write_data Nat encU32le 32 B (c.pos + 24)
    (List.replicate mt.position_deltas.length 0) _ (by omega)
    (((k1.trans k2).trans k3).trans k4).1
  have k6 := @keeps_write_data Nat encU32le 32 B (c.pos + 28)
    mt.vertex_indices _ (by omega)
    ((((k1.trans k2).trans k3).trans k4).trans k5).1
  exact ((((k1.trans k2).trans k3).trans k4).trans k5).trans k6

theorem keeps_write_morph_blend_target {B : Nat} {c cf : WCursor}
    {blend : List AttributeData} {t : LibMorphTarget}
    (h : write_morph_blend_target c blend = some (t, cf)) (hB : B ≤ c.pos) :
    Keeps B c cf := by
  unfold write_morph_blend_target at h
  rcases hv : write_vertex_buffer c blend with _ | ⟨d, cv⟩
  · rw [hv] at h
    cases h
  · rw [hv] at h
    injection h with h
    injection h with _ h2
    rw [← h2]
    exact keeps_write_vertex_buffer hv hB

/-! The sorted duplicate-free union (`BTreeSet<u32>` collected from the
param targets' vertex indices). -/

/-- Ordered insertion without duplicates (one `BTreeSet` insert). -/
def insertSorted (x : Nat) : List Nat → List Nat
  | [] => [x]
  | y :: ys => if x < y then x :: y :: ys else if x = y then y :: ys else y :: insertSorted x ys

/-- The contents of a `BTreeSet<u32>` built from a list. -/
def btreeSetOfList (l : List Nat) : List Nat :=
  l.foldl (fun acc x => insertSorted x acc) []

theorem mem_insertSorted (x a : Nat) :
    ∀ l : List Nat, (a ∈ insertSorted x l ↔ a = x ∨ a ∈ l)
  | [] => by simp [insertSorted]
  | y :: ys => by
    unfold insertSorted
    split
    · simp [or_comm, or_assoc, or_left_comm]
    · split
      · rename_i hlt heq
        subst heq
        rw [List.mem_cons]
        tauto
      · simp [mem_insertSorted x a ys]
        tauto

theorem sorted_insertSorted (x : Nat) :
    ∀ l : List Nat, l.Sorted (· < ·) → (insertSorted x l).Sorted (· < ·)
  | [], _ => by simp [insertSorted]
  | y :: ys, h => by
    rw [List.sorted_cons] at h
    unfold insertSorted
    split
    · rename_i hlt
      rw [List.sorted_cons]
      refine ⟨?_, by rw [List.sorted_cons]; exact h⟩
      intro b hb
      rcases List.mem_cons.mp hb with rfl | hb
      · exact hlt
      · exact lt_trans hlt (h.1 b hb)
    · split
      · rw [List.sorted_cons]
        exact h
      · rename_i hlt heq
        rw [List.sorted_cons]
        refine ⟨?_, sorted_insertSorted x ys h.2⟩
        intro b hb
        rcases (mem_insertSorted x b ys).mp hb with rfl | hb
        · omega
        · exact h.1 b hb

theorem btreeSetOfList_go_sorted :
    ∀ (l acc : List Nat), acc.Sorted (· < ·) →
      (l.foldl (fun acc x => insertSorted x acc) acc).Sorted (· < ·)
  | [], _, h => h
  | x :: t, acc, h =>
    btreeSetOfList_go_sorted t (insertSorted x acc) (sorted_insertSorted x acc h)

theorem btreeSetOfList_sorted (l : List Nat) : (btreeSetOfList l).Sorted (· < ·) :=
  btreeSetOfList_go_sorted l [] (by simp)

theorem btreeSetOfList_go_mem (a : Nat) :
    ∀ (l acc : List Nat),
      (a ∈ l.foldl (fun acc x => insertSorted x acc) acc ↔ a ∈ acc ∨ a ∈ l)
  | [], acc => by simp
  | x :: t, acc => by
    rw [List.foldl_cons, btreeSetOfList_go_mem a t (insertSorted x acc),
      mem_insertSorted x a acc]
    simp
    tauto

/-- Membership in the collected set is membership in the source list. -/
theorem mem_btreeSetOfList (a : Nat) (l : List Nat) :
    a ∈ btreeSetOfList l ↔ a ∈ l := by
  rw [btreeSetOfList, btreeSetOfList_go_mem a l []]
  simp

theorem btreeSetOfList_nodup (l : List Nat) : (btreeSetOfList l).Nodup :=
  (btreeSetOfList_sorted l).imp fun h => Nat.ne_of_lt h

/-- The `BTreeSet<u32>` of `write_morph_targets`: the union of the
`vertex_indices` of all of the buffer's param targets, iterated in
ascending order without duplicates. -/
def morphUnion (b : VertexBuffer) : List Nat :=
  btreeSetOfList (b.morph_targets.map (fun t => t.vertex_indices)).flatten

/-- The conditions under which `write_morph_default_target` does not panic
for a buffer: the blend target has `Position2`, `Normal4` and `Tangent2`
attributes and they cover every vertex index referenced by a param
target. -/
def morphOk (b : VertexBuffer) : Bool :=
  match findPosition2 b.morph_blend_target, findNormal4 b.morph_blend_target,
      findTangent2 b.morph_blend_target with
  | some pvs, some nvs, some tvs =>
    (morphUnion b).all fun i =>
      decide (i < pvs.length) && decide (i < nvs.length) && decide (i < tvs.length)
  | _, _, _ => false

/-- The inner `for morph_target in &buffer.morph_targets` loop of
`write_morph_targets`: align to 256 and write each param target. -/
def writeParamsGo : WCursor → List MorphTarget → (List LibMorphTarget × WCursor)
  | c, [] => ([], c)
  | c, mt :: rest =>
    let tc := write_morph_param_target (alignW c 256) mt
    let pr := writeParamsGo tc.2 rest
    (tc.1 :: pr.1, pr.2)

/-- The outer loop of `write_morph_targets` over the enumerated vertex
buffers: buffers with no morph targets are filtered out; for each other
buffer a descriptor is pushed, then the blend target, the default target
over the union of modified indices, and one param target per morph target
are written and appended to the running target list. -/
def writeMorphTargetsGo :
    WCursor → List (Nat × VertexBuffer) → List MorphDescriptor →
      List LibMorphTarget → Option (List MorphDescriptor × List LibMorphTarget × WCursor)
  | c, [], ds, ts => some (ds, ts, c)
  | c, (i, b) :: rest, ds, ts =>
    if b.morph_targets.isEmpty then writeMorphTargetsGo c rest ds ts
    else
      match write_morph_blend_target c b.morph_blend_target with
      | none => none
      | some (tb, c1) =>
        match write_morph_default_target c1 (morphUnion b) b with
        | none => none
        | some (td, c2) =>
          let pr := writeParamsGo c2 b.morph_targets
          writeMorphTargetsGo pr.2 rest
            (ds ++ [⟨i, ts.length, List.range b.morph_targets.length, 3⟩])
            (ts ++ [tb, td] ++ pr.1)

/-- Source `ModelBuffers::write_morph_targets`: run the loop over the
enumerated vertex buffers and pack the descriptors and targets. -/
def write_morph_targets (c : WCursor) (vertex_buffers : List VertexBuffer) :
    Option (VertexMorphs × WCursor) :=
  match writeMorphTargetsGo c vertex_buffers.enum [] [] with
  | none => none
  | some (ds, ts, cf) => some (⟨ds, ts, List.replicate 4 0⟩, cf)

theorem keeps_writeParamsGo {B : Nat} :
    ∀ (mts : List MorphTarget) (c : WCursor), B ≤ c.pos →
      Keeps B c (writeParamsGo c mts).2
  | [], c, h => keeps_refl h
  | mt :: rest, c, h => by
    have h1 : Keeps B c (alignW c 256) := keeps_alignW h
    have h2 := @keeps_write_morph_param_target B (alignW c 256) mt h1.1
    exact (h1.trans h2).trans (keeps_writeParamsGo rest _ (h1.trans h2).1)

/-- A found `Position2` attribute means the blend target list is not
empty, so `write_vertex_buffer` on it cannot hit the empty-index panic. -/
theorem findPosition2_ne_nil {l : List AttributeData} {v : List Vec3B}
    (h : findPosition2 l = some v) : l ≠ [] := by
  intro hnil
  subst hnil
  simp [findPosition2] at h

/-- Unpack `morphOk`: the three blend attributes exist and cover the
union of referenced vertex indices. -/
theorem morphOk_elim {b : VertexBuffer} (h : morphOk b = true) :
    ∃ pvs nvs tvs, findPosition2 b.morph_blend_target = some pvs ∧
      findNormal4 b.morph_blend_target = some nvs ∧
      findTangent2 b.morph_blend_target = some tvs ∧
      ∀ a ∈ morphUnion b, a < pvs.length ∧ a < nvs.length ∧ a < tvs.length := by
  unfold morphOk at h
  split at h
  · rename_i pvs nvs tvs hp hn ht
    refine ⟨pvs, nvs, tvs, hp, hn, ht, ?_⟩
    intro a ha
    have hx := (List.all_eq_true.mp h) a ha
    simp only [Bool.and_eq_true, decide_eq_true_eq] at hx
    exact ⟨hx.1.1, hx.1.2, hx.2⟩
  · cases h

theorem write_morph_blend_target_total (c : WCursor) {blend : List AttributeData}
    (h : blend ≠ []) : ∃ t cf, write_morph_blend_target c blend = some (t, cf) := by
  cases blend with
  | nil => exact absurd rfl h
  | cons a rest => exact ⟨_, _, rfl⟩

/-- Totality and shape of the `write_morph_targets` loop: when every
processed buffer with morph targets satisfies `morphOk`, the loop
succeeds, only appends to the accumulators, produces descriptors indexed
by the processed item indices, and keeps everything below the starting
position. -/
theorem writeMorphTargetsGo_spec (Nvb : Nat) :
    ∀ (items : List (Nat × VertexBuffer)) (c : WCursor) (ds : List MorphDescriptor)
      (ts : List LibMorphTarget),
      (∀ p ∈ items, p.2.morph_targets ≠ [] → morphOk p.2 = true) →
      (∀ p ∈ items, p.1 < Nvb) →
      ∃ ds2 ts2 cf,
        writeMorphTargetsGo c items ds ts = some (ds ++ ds2, ts ++ ts2, cf) ∧
        (∀ d ∈ ds2, d.vertex_buffer_index < Nvb) ∧
        ∀ B, B ≤ c.pos → Keeps B c cf
  | [], c, ds, ts, _, _ =>
    ⟨[], [], c, by simp [writeMorphTargetsGo], by simp, fun _ hB => keeps_refl hB⟩
  | (i, b) :: rest, c, ds, ts, hok, hidx => by
    by_cases hbe : b.morph_targets.isEmpty
    · rw [writeMorphTargetsGo, if_pos hbe]
      exact writeMorphTargetsGo_spec Nvb rest c ds ts
        (fun p hp => hok p (List.mem_cons_of_mem _ hp))
        (fun p hp => hidx p (List.mem_cons_of_mem _ hp))
    · have hbne : b.morph_targets ≠ [] := by
        simpa [List.isEmpty_iff] using hbe
      have hmo : morphOk b = true := hok (i, b) (List.mem_cons_self _ _) hbne
      obtain ⟨pvs, nvs, tvs, hp, hn, ht, hcov⟩ := morphOk_elim hmo
      obtain ⟨tb, c1, hblend⟩ := write_morph_blend_target_total c (findPosition2_ne_nil hp)
      obtain ⟨c2, hdef, hpos2, hlen2, _, hfr2, _⟩ :=
        write_morph_default_target_spec c1 (morphUnion b) b pvs nvs tvs hp hn ht hcov
      obtain ⟨ds2, ts2, cf, hrec, hbound, hkeeps⟩ :=
        writeMorphTargetsGo_spec Nvb rest (writeParamsGo c2 b.morph_targets).2
          (ds ++ [⟨i, ts.length, List.range b.morph_targets.length, 3⟩])
          (ts ++ [tb, ⟨c1.pos, (morphUnion b).length, 32, ⟨0, false, true, false, 0⟩⟩] ++
            (writeParamsGo c2 b.morph_targets).1)
          (fun p hp => hok p (List.mem_cons_of_mem _ hp))
          (fun p hp => hidx p (List.mem_cons_of_mem _ hp))
      refine ⟨⟨i, ts.length, List.range b.morph_targets.length, 3⟩ :: ds2,
        [tb, ⟨c1.pos, (morphUnion b).length, 32, ⟨0, false, true, false, 0⟩⟩] ++
          (writeParamsGo c2 b.morph_targets).1 ++ ts2, cf, ?_, ?_, ?_⟩
      · rw [writeMorphTargetsGo, if_neg hbe, hblend]
        dsimp only
        rw [hdef]
        dsimp only
        rw [hrec]
        simp [List.append_assoc]
      · intro d hd
        rcases List.mem_cons.mp hd with rfl | hd
        · exact hidx (i, b) (List.mem_cons_self _ _)
        · exact hbound d hd
      · intro B hB
        have k1 : Keeps B c c1 := keeps_write_morph_blend_target hblend hB
        have k2 : Keeps B c1 c2 := by
          have hBp : B ≤ c1.pos := k1.1
          exact ⟨by omega, hlen2, fun q hq => hfr2 q (by omega)⟩
        have k3 : Keeps B c2 (writeParamsGo c2 b.morph_targets).2 :=
          keeps_writeParamsGo b.morph_targets c2 (k1.trans k2).1
        exact (((k1.trans k2).trans k3).trans (hkeeps B ((k1.trans k2).trans k3).1))

theorem get_second_of_append {α : Type} (ts ps rest : List α) (tb td : α) :
    ((ts ++ [tb, td] ++ ps) ++ rest).get? (ts.length + 1) = some td := by
  rw [List.get?_eq_getElem?]
  rw [List.getElem?_append_left (by simp)]
  rw [List.getElem?_append_left (by simp)]
  rw [List.getElem?_append_right (by omega)]
  simp

/-- Focus of the `write_morph_targets` loop on one buffer `b` at enumerated
index `i` with a non-empty morph target list: the loop succeeds, pushes a
descriptor `(i, t0, 0..n, 3)`, records the default target as the target at
`t0 + 1` with the union's size, a 32-byte stride and the default-buffer
flag, and the final buffer holds the blend target's values at the union's
indices in the default target's region. -/
theorem writeMorphTargetsGo_focus (Nvb : Nat) {i : Nat} {b : VertexBuffer}
    (post : List (Nat × VertexBuffer)) (pvs : List Vec3B) (nvs tvs : List Vec4Q)
    (hpostok : ∀ p ∈ post, p.2.morph_targets ≠ [] → morphOk p.2 = true)
    (hpostidx : ∀ p ∈ post, p.1 < Nvb) (hi : i < Nvb)
    (hbne : b.morph_targets ≠ [])
    (hp : findPosition2 b.morph_blend_target = some pvs)
    (hn : findNormal4 b.morph_blend_target = some nvs)
    (ht : findTangent2 b.morph_blend_target = some tvs)
    (hcov : ∀ a ∈ morphUnion b, a < pvs.length ∧ a < nvs.length ∧ a < tvs.length) :
    ∀ (pre : List (Nat × VertexBuffer)) (c : WCursor) (ds : List MorphDescriptor)
      (ts : List LibMorphTarget),
      (∀ p ∈ pre, p.2.morph_targets ≠ [] → morphOk p.2 = true) →
      (∀ p ∈ pre, p.1 < Nvb) →
      (∀ d ∈ ds, d.vertex_buffer_index < Nvb) →
      ∃ ds' ts' cf,
        writeMorphTargetsGo c (pre ++ (i, b) :: post) ds ts = some (ds', ts', cf) ∧
        (∀ d ∈ ds', d.vertex_buffer_index < Nvb) ∧
        ∃ t0 off,
          (⟨i, t0, List.range b.morph_targets.length, 3⟩ : MorphDescriptor) ∈ ds' ∧
          ts'.get? (t0 + 1) =
            some ⟨off, (morphUnion b).length, 32, ⟨0, false, true, false, 0⟩⟩ ∧
          off + 32 * (morphUnion b).length ≤ cf.pos ∧
          (morphUnion b ≠ [] → off + 32 * (morphUnion b).length ≤ cf.len) ∧
          ∀ k, k < (morphUnion b).length → ∀ j, j < 32 →
            cf.data (off + 32 * k + j) =
              (vertexBytes32 (pvs.getD ((morphUnion b).getD k 0) (0, 0, 0))
                (nvs.getD ((morphUnion b).getD k 0) (0, 0, 0, 0))
                (tvs.getD ((morphUnion b).getD k 0) (0, 0, 0, 0))
                ((morphUnion b).getD k 0)).getD j 0
  | [], c, ds, ts, _, _, hdsidx => by
    have hbe : ¬b.morph_targets.isEmpty := by
      simpa [List.isEmpty_iff] using hbne
    obtain ⟨tb, c1, hblend⟩ := write_morph_blend_target_total c (findPosition2_ne_nil hp)
    obtain ⟨c2, hdef, hpos2, _, hlen2, _, hbytes2⟩ :=
      write_morph_default_target_spec c1 (morphUnion b) b pvs nvs tvs hp hn ht hcov
    obtain ⟨ds2, ts2, cf, hrec, hbound, hkeeps⟩ :=
      writeMorphTargetsGo_spec Nvb post (writeParamsGo c2 b.morph_targets).2
        (ds ++ [⟨i, ts.length, List.range b.morph_targets.length, 3⟩])
        (ts ++ [tb, ⟨c1.pos, (morphUnion b).length, 32, ⟨0, false, true, false, 0⟩⟩] ++
          (writeParamsGo c2 b.morph_targets).1)
        hpostok hpostidx
    have hB0 : c1.pos + 32 * (morphUnion b).length ≤ c2.pos := le_of_eq hpos2.symm
    have kP : Keeps (c1.pos + 32 * (morphUnion b).length) c2
        (writeParamsGo c2 b.morph_targets).2 :=
      keeps_writeParamsGo b.morph_targets c2 hB0
    have kAll := kP.trans (hkeeps _ kP.1)
    refine ⟨(ds ++ [⟨i, ts.length, List.range b.morph_targets.length, 3⟩]) ++ ds2,
      (ts ++ [tb, ⟨c1.pos, (morphUnion b).length, 32, ⟨0, false, true, false, 0⟩⟩] ++
        (writeParamsGo c2 b.morph_targets).1) ++ ts2, cf,
      ?_, ?_, ts.length, c1.pos, ?_, ?_, kAll.1, ?_, ?_⟩
    · rw [List.nil_append, writeMorphTargetsGo, if_neg hbe, hblend]
      dsimp only
      rw [hdef]
      dsimp only
      exact hrec
    · intro d hd
      rcases List.mem_append.mp hd with hd | hd
      · rcases List.mem_append.mp hd with hd | hd
        · exact hdsidx d hd
        · rcases List.mem_singleton.mp hd with rfl
          exact hi
      · exact hbound d hd
    · simp
    · exact get_second_of_append ts (writeParamsGo c2 b.morph_targets).1 ts2 tb
        ⟨c1.pos, (morphUnion b).length, 32, ⟨0, false, true, false, 0⟩⟩
    · intro hUne
      exact le_trans (hlen2 hUne) kAll.2.1
    · intro k hk j hj
      have hq : c1.pos + 32 * k + j < c1.pos + 32 * (morphUnion b).length := by omega
      rw [kAll.2.2 _ hq]
      exact hbytes2 k hk j hj
  | (jp, pb) :: pre, c, ds, ts, hpreok, hpreidx, hdsidx => by
    simp only [List.cons_append]
    by_cases hbe : pb.morph_targets.isEmpty
    · rw [writeMorphTargetsGo, if_pos hbe]
      exact writeMorphTargetsGo_focus Nvb post pvs nvs tvs hpostok hpostidx hi hbne
        hp hn ht hcov pre c ds ts
        (fun p hp2 => hpreok p (List.mem_cons_of_mem _ hp2))
        (fun p hp2 => hpreidx p (List.mem_cons_of_mem _ hp2)) hdsidx
    · have hpbne : pb.morph_targets ≠ [] := by
        simpa [List.isEmpty_iff] using hbe
      have hmo : morphOk pb = true := hpreok (jp, pb) (List.mem_cons_self _ _) hpbne
      obtain ⟨pvs2, nvs2, tvs2, hp2, hn2, ht2, hcov2⟩ := morphOk_elim hmo
      obtain ⟨tb2, c1, hblend2⟩ :=
        write_morph_blend_target_total c (findPosition2_ne_nil hp2)
      obtain ⟨c2, hdef2, _, _, _, _, _⟩ :=
        write_morph_default_target_spec c1 (morphUnion pb) pb pvs2 nvs2 tvs2
          hp2 hn2 ht2 hcov2
      rw [writeMorphTargetsGo, if_neg hbe, hblend2]
      dsimp only
      rw [hdef2]
      dsimp only
      refine writeMorphTargetsGo_focus Nvb post pvs nvs tvs hpostok hpostidx hi hbne
        hp hn ht hcov pre _ _ _
        (fun p hp2 => hpreok p (List.mem_cons_of_mem _ hp2))
        (fun p hp2 => hpreidx p (List.mem_cons_of_mem _ hp2)) ?_
      intro d hd
      rcases List.mem_append.mp hd with hd | hd
      · exact hdsidx d hd
      · rcases List.mem_singleton.mp hd with rfl
        exact hpreidx (jp, pb) (List.mem_cons_self _ _)

/-! The remaining inputs and outputs of `ModelBuffers::to_vertex_data`. -/

/-- Modelled from the spec: `xc3_lib::vertex::WeightGroup` records are
copied verbatim by `to_vertex_data` and never inspected there, so each
record is carried as an abstract token. -/
abbrev WeightGroup := Nat

/-- Modelled from the spec: `xc3_lib::vertex::WeightLod` records are
likewise copied verbatim and carried as abstract tokens. -/
abbrev WeightLod := Nat

/-- See `SkinWeights` in `xc3_model/src/skinning.rs` (one weight buffer). -/
structure SkinWeights where
  bone_indices : List (Nat × Nat × Nat × Nat)
  weights : List Vec4Q
  bone_names : List String
  deriving DecidableEq

/-- See `WeightGroups` in `xc3_model/src/skinning.rs`. -/
inductive WeightGroups where
  | Legacy (weight_buffer_indices : List Nat)
  | Groups (weight_groups : List WeightGroup) (weight_lods : List WeightLod)
  deriving DecidableEq

/-- See `Weights` in `xc3_model/src/skinning.rs`. -/
structure Weights where
  weight_buffers : List SkinWeights
  weight_groups : WeightGroups
  deriving DecidableEq

/-- Modelled from the spec: `xc3_lib::vertex::Weights`, filled by
`to_vertex_data` with the cloned groups and lods, the index of the skin
weights vertex buffer, `unk4 = 1` and zero `unks5`. -/
structure LibWeights where
  groups : List WeightGroup
  vertex_buffer_index : Nat
  weight_lods : List WeightLod
  unk4 : Nat
  unks5 : List Nat
  deriving DecidableEq

/-- Modelled from the spec: the only primitive type emitted by the
writer. -/
inductive PrimitiveType where
  | TriangleList
  deriving DecidableEq

/-- Modelled from the spec: the only index format emitted by the writer. -/
inductive IndexFormat where
  | Uint16
  deriving DecidableEq

/-- Modelled from the spec: `xc3_lib::vertex::IndexBufferDescriptor`. -/
structure IndexBufferDescriptor where
  data_offset : Nat
  index_count : Nat
  primitive_type : PrimitiveType
  index_format : IndexFormat
  unk3 : Nat
  unk4 : Nat
  deriving DecidableEq

/-- Modelled from the spec: `xc3_lib::vertex::OutlineBufferDescriptor`. -/
structure OutlineBufferDescriptor where
  data_offset : Nat
  vertex_count : Nat
  vertex_size : Nat
  unk : Nat
  deriving DecidableEq

/-- Modelled from the spec: `xc3_lib::vertex::UnkBufferDescriptor`. -/
structure UnkBufferDescriptor where
  unk1 : Nat
  unk2 : Nat
  count : Nat
  offset : Nat
  unk5 : Nat
  start_index : Nat
  deriving DecidableEq

/-- Modelled from the spec: `xc3_lib::vertex::Unk` (the `unk7` section). -/
structure Unk where
  buffers : List UnkBufferDescriptor
  data_length : Nat
  data_offset : Nat
  unks : List Nat
  deriving DecidableEq

/-- Modelled from the spec: `xc3_lib::vertex::UnkData`; `to_vertex_data`
never constructs one, so the type needs no inhabitants here. -/
inductive UnkData where
  deriving DecidableEq

/-- Modelled from the spec: `VertexBufferExtInfoFlags::new(has_outline,
has_morphs, unk)`. -/
structure VertexBufferExtInfoFlags where
  has_outline_buffer : Bool
  has_morph_targets : Bool
  unk : Nat
  deriving DecidableEq

/-- Modelled from the spec: `xc3_lib::vertex::VertexBufferExtInfo`. -/
structure VertexBufferExtInfo where
  flags : VertexBufferExtInfoFlags
  outline_buffer_index : Nat
  morph_target_start_index : Nat
  morph_target_count : Nat
  unk : Nat
  deriving DecidableEq

/-- See `OutlineBuffer` in `xc3_model/src/vertex.rs`. -/
structure OutlineBuffer where
  attributes : List AttributeData
  deriving DecidableEq

/-- See `UnkBuffer` in `xc3_model/src/vertex.rs`. -/
structure UnkBuffer where
  attributes : List AttributeData
  deriving DecidableEq

/-- See `IndexBuffer` in `xc3_model/src/vertex.rs` (u16 indices). -/
structure IndexBuffer where
  indices : List Nat
  deriving DecidableEq

/-- See `ModelBuffers` in `xc3_model/src/vertex.rs`. -/
structure ModelBuffers where
  vertex_buffers : List VertexBuffer
  outline_buffers : List OutlineBuffer
  index_buffers : List IndexBuffer
  unk_buffers : List UnkBuffer
  weights : Option Weights
  deriving DecidableEq

/-- Modelled from the spec: `xc3_lib::vertex::VertexData` as assembled by
`to_vertex_data`. -/
structure VertexData where
  vertex_buffers : List VertexBufferDescriptor
  index_buffers : List IndexBufferDescriptor
  unk0 : Nat
  unk1 : Nat
  unk2 : Nat
  vertex_buffer_info : List VertexBufferExtInfo
  outline_buffers : List OutlineBufferDescriptor
  vertex_morphs : Option VertexMorphs
  buffer : List Byte
  unk_data : Option UnkData
  weights : Option LibWeights
  unk7 : Option Unk
  unks : List Nat

/-- Source `write_index_buffer`: the u16 indices are written contiguously
at the current position. -/
def write_index_buffer (c : WCursor) (indices : List Nat) :
    IndexBufferDescriptor × WCursor :=
  (⟨c.pos, indices.length, .TriangleList, .Uint16, 0, 0⟩,
    c.write (indices.map encU16le).flatten)

/-- Source `write_outline_buffer`: a vertex buffer write repackaged as an
outline descriptor. -/
def write_outline_buffer (c : WCursor) (attribute_data : List AttributeData) :
    Option (OutlineBufferDescriptor × WCursor) :=
  (write_vertex_buffer c attribute_data).map fun dc =>
    (⟨dc.1.data_offset, dc.1.vertex_count, dc.1.vertex_size, 0⟩, dc.2)

/-- Source `write_unk_buffer`: a vertex buffer write repackaged as an unk
descriptor with the section-relative offset. -/
def write_unk_buffer (c : WCursor) (buffer : UnkBuffer)
    (data_offset unk2 start_index : Nat) : Option (UnkBufferDescriptor × WCursor) :=
  (write_vertex_buffer c buffer.attributes).map fun dc =>
    (⟨if dc.1.vertex_size = 16 then 0 else 1,
      if dc.1.vertex_size = 16 then unk2 else unk2 + 1,
      dc.1.vertex_count, dc.1.data_offset - data_offset, 0, start_index⟩, dc.2)

/-- The loop of `write_unk_buffers` over the enumerated unk buffers,
accumulating the running start index. -/
def writeUnkBuffersGo (data_offset : Nat) :
    WCursor → List UnkBuffer → Nat → Nat →
      Option (List UnkBufferDescriptor × WCursor)
  | c, [], _, _ => some ([], c)
  | c, b :: rest, i, start_index =>
    match write_unk_buffer c b data_offset i start_index with
    | none => none
    | some (d, c1) =>
      match writeUnkBuffersGo data_offset c1 rest (i + 1) (start_index + d.count) with
      | none => none
      | some (ds, cf) => some (d :: ds, cf)

/-- Source `write_unk_buffers`: write every unk buffer and record the
section offset and byte length. -/
def write_unk_buffers (c : WCursor) (unk_buffers : List UnkBuffer) :
    Option (Unk × WCursor) :=
  match writeUnkBuffersGo c.pos c unk_buffers 0 0 with
  | none => none
  | some (ds, cf) => some (⟨ds, cf.pos - c.pos, c.pos, List.replicate 8 0⟩, cf)

/-- The `for buffer in &self.vertex_buffers` loop of `to_vertex_data`. -/
def writeVertexBuffersGo :
    WCursor → List VertexBuffer → Option (List VertexBufferDescriptor × WCursor)
  | c, [] => some ([], c)
  | c, b :: rest =>
    match write_vertex_buffer c b.attributes with
    | none => none
    | some (d, c1) =>
      match writeVertexBuffersGo c1 rest with
      | none => none
      | some (ds, cf) => some (d :: ds, cf)

/-- The `if let Some(weights)` block of `to_vertex_data`: append one
vertex buffer holding the first weight buffer's skin weights and bone
indices; indexing `weight_buffers[0]` on an empty list is a panic. -/
def writeWeightsStage (c : WCursor) (vds : List VertexBufferDescriptor) :
    Option Weights → Option (List VertexBufferDescriptor × WCursor)
  | none => some (vds, c)
  | some w =>
    match w.weight_buffers.get? 0 with
    | none => none
    | some wb =>
      match write_vertex_buffer c
          [.SkinWeights wb.weights, .BoneIndices wb.bone_indices] with
      | none => none
      | some (d, c1) => some (vds ++ [d], c1)

/-- The `for buffer in &self.outline_buffers` loop of `to_vertex_data`. -/
def writeOutlineBuffersGo :
    WCursor → List OutlineBuffer → Option (List OutlineBufferDescriptor × WCursor)
  | c, [] => some ([], c)
  | c, b :: rest =>
    match write_outline_buffer c b.attributes with
    | none => none
    | some (d, c1) =>
      match writeOutlineBuffersGo c1 rest with
      | none => none
      | some (ds, cf) => some (d :: ds, cf)

/-- The `for buffer in &self.index_buffers` loop of `to_vertex_data`:
4-align, then write each index buffer. -/
def writeIndexBuffersGo :
    WCursor → List IndexBuffer → (List IndexBufferDescriptor × WCursor)
  | c, [] => ([], c)
  | c, b :: rest =>
    let dc := write_index_buffer (alignW c 4) b.indices
    let pr := writeIndexBuffersGo dc.2 rest
    (dc.1 :: pr.1, pr.2)

/-- The initial per-buffer ext info of `to_vertex_data` before the morph
descriptor patch loop. -/
def vertexBufferInfoBase (b : VertexBuffer) : VertexBufferExtInfo :=
  ⟨⟨b.outline_buffer_index.isSome, !b.morph_targets.isEmpty, 0⟩,
    b.outline_buffer_index.getD 0, 0, 0, 0⟩

/-- The `if let Some(morphs)` patch loop of `to_vertex_data`: for each
morph descriptor, overwrite the indexed ext info's start index and count;
an out-of-range `vertex_buffer_index` is an indexing panic. -/
def applyOneMorphInfo (acc : List VertexBufferExtInfo) (d : MorphDescriptor) :
    Option (List VertexBufferExtInfo) :=
  match acc.get? d.vertex_buffer_index with
  | none => none
  | some info => some (acc.set d.vertex_buffer_index
      { info with morph_target_start_index := d.target_start_index,
                  morph_target_count := d.param_indices.length })

/-- The whole patch loop as a fold of `applyOneMorphInfo`. -/
def applyMorphInfo (infos : List VertexBufferExtInfo)
    (ds : List MorphDescriptor) : Option (List VertexBufferExtInfo) :=
  ds.foldlM applyOneMorphInfo infos

/-- The `weights` record of `to_vertex_data`: legacy weight groups are
dropped, grouped ones are cloned with the index of the last written
vertex buffer. -/
def libWeightsOf (nvb : Nat) : Option Weights → Option LibWeights
  | none => none
  | some w =>
    match w.weight_groups with
    | .Legacy _ => none
    | .Groups g l => some ⟨g, nvb - 1, l, 1, List.replicate 4 0⟩

/-- Source `ModelBuffers::to_vertex_data`: write the vertex buffers, the
optional skin weights buffer, the outline buffers, the 4-aligned index
buffers, then after 256-alignment the morph targets (only when some
buffer has morph targets), after another 256-alignment the unk buffers
(only when present), 4096-align, build the per-buffer ext infos patched
by the morph descriptors, and assemble the `VertexData`. -/
def to_vertex_data (mb : ModelBuffers) : Option VertexData :=
  match writeVertexBuffersGo WCursor.empty mb.vertex_buffers with
  | none => none
  | some (vds0, c1) =>
    match writeWeightsStage c1 vds0 mb.weights with
    | none => none
    | some (vds, c2) =>
      match writeOutlineBuffersGo c2 mb.outline_buffers with
      | none => none
      | some (ods, c3) =>
        let ic := writeIndexBuffersGo c3 mb.index_buffers
        let c5 := alignW ic.2 256
        match (if mb.vertex_buffers.any (fun b => !b.morph_targets.isEmpty) then
            (write_morph_targets c5 mb.vertex_buffers).map (fun r => (some r.1, r.2))
          else some (none, c5)) with
        | none => none
        | some (vm, c6) =>
          let c7 := alignW c6 256
          match (if mb.unk_buffers.isEmpty then some (none, c7) else
              (write_unk_buffers c7 mb.unk_buffers).map fun r => (some r.1, r.2)) with
          | none => none
          | some (unk7, c8) =>
            let c9 := alignW c8 4096
            match (match vm with
              | none => some (mb.vertex_buffers.map vertexBufferInfoBase)
              | some m => applyMorphInfo (mb.vertex_buffers.map vertexBufferInfoBase)
                  m.descriptors) with
            | none => none
            | some infos =>
              some ⟨vds, ic.1, 0, 0, 0, infos, ods, vm, c9.toBytes, none,
                libWeightsOf vds.length mb.weights, unk7, List.replicate 5 0⟩

/-! Frame and totality lemmas for the `to_vertex_data` stages. -/

theorem keeps_write_unk_buffer {B : Nat} {c cf : WCursor} {ub : UnkBuffer}
    {doff u2 si : Nat} {d : UnkBufferDescriptor}
    (h : write_unk_buffer c ub doff u2 si = some (d, cf)) (hB : B ≤ c.pos) :
    Keeps B c cf := by
  unfold write_unk_buffer at h
  rcases hv : write_vertex_buffer c ub.attributes with _ | ⟨dv, cv⟩
  · rw [hv] at h
    cases h
  · rw [hv] at h
    injection h with h
    injection h with _ h2
    rw [← h2]
    exact keeps_write_vertex_buffer hv hB

theorem keeps_writeUnkBuffersGo {B doff : Nat} :
    ∀ (bs : List UnkBuffer) (c : WCursor) (i si : Nat)
      (ds : List UnkBufferDescriptor) (cf : WCursor),
      writeUnkBuffersGo doff c bs i si = some (ds, cf) → B ≤ c.pos → Keeps B c cf
  | [], c, i, si, ds, cf, h, hB => by
    simp only [writeUnkBuffersGo, Option.some.injEq, Prod.mk.injEq] at h
    rw [← h.2]
    exact keeps_refl hB
  | b :: rest, c, i, si, ds, cf, h, hB => by
    rw [writeUnkBuffersGo] at h
    split at h
    · cases h
    · rename_i d c1 hw
      split at h
      · cases h
      · rename_i ds1 cf1 hrec
        injection h with h
        injection h with _ h2
        subst h2
        have k1 := keeps_write_unk_buffer hw hB
        exact k1.trans (keeps_writeUnkBuffersGo rest c1 _ _ ds1 cf1 hrec k1.1)

theorem keeps_write_unk_buffers {B : Nat} {c cf : WCursor} {ubs : List UnkBuffer}
    {u : Unk} (h : write_unk_buffers c ubs = some (u, cf)) (hB : B ≤ c.pos) :
    Keeps B c cf := by
  unfold write_unk_buffers at h
  split at h
  · cases h
  · rename_i ds cf1 hgo
    injection h with h
    injection h with _ h2
    subst h2
    exact keeps_writeUnkBuffersGo ubs c 0 0 ds cf1 hgo hB

theorem write_vertex_buffer_total (c : WCursor) {attrs : List AttributeData}
    (h : attrs ≠ []) : ∃ d cf, write_vertex_buffer c attrs = some (d, cf) := by
  cases attrs with
  | nil => exact absurd rfl h
  | cons a rest => exact ⟨_, _, rfl⟩

theorem writeVertexBuffersGo_total :
    ∀ (bs : List VertexBuffer) (c : WCursor),
      (∀ b ∈ bs, b.attributes ≠ []) →
      ∃ ds cf, writeVertexBuffersGo c bs = some (ds, cf)
  | [], c, _ => ⟨[], c, rfl⟩
  | b :: rest, c, h => by
    obtain ⟨d, c1, hw⟩ := write_vertex_buffer_total c (h b (List.mem_cons_self _ _))
    obtain ⟨ds, cf, hrec⟩ := writeVertexBuffersGo_total rest c1
      (fun b2 hb => h b2 (List.mem_cons_of_mem _ hb))
    refine ⟨d :: ds, cf, ?_⟩
    rw [writeVertexBuffersGo, hw]
    dsimp only
    rw [hrec]

theorem write_outline_buffer_total (c : WCursor) {attrs : List AttributeData}
    (h : attrs ≠ []) : ∃ d cf, write_outline_buffer c attrs = some (d, cf) := by
  obtain ⟨d, cf, hw⟩ := write_vertex_buffer_total c h
  refine ⟨⟨d.data_offset, d.vertex_count, d.vertex_size, 0⟩, cf, ?_⟩
  rw [write_outline_buffer, hw]
  rfl

theorem writeOutlineBuffersGo_total :
    ∀ (bs : List OutlineBuffer) (c : WCursor),
      (∀ b ∈ bs, b.attributes ≠ []) →
      ∃ ds cf, writeOutlineBuffersGo c bs = some (ds, cf)
  | [], c, _ => ⟨[], c, rfl⟩
  | b :: rest, c, h => by
    obtain ⟨d, c1, hw⟩ := write_outline_buffer_total c (h b (List.mem_cons_self _ _))
    obtain ⟨ds, cf, hrec⟩ := writeOutlineBuffersGo_total rest c1
      (fun b2 hb => h b2 (List.mem_cons_of_mem _ hb))
    refine ⟨d :: ds, cf, ?_⟩
    rw [writeOutlineBuffersGo, hw]
    dsimp only
    rw [hrec]

theorem write_unk_buffer_total (c : WCursor) {ub : UnkBuffer} (doff u2 si : Nat)
    (h : ub.attributes ≠ []) :
    ∃ d cf, write_unk_buffer c ub doff u2 si = some (d, cf) := by
  obtain ⟨d, cf, hw⟩ := write_vertex_buffer_total c h
  refine ⟨⟨if d.vertex_size = 16 then 0 else 1,
    if d.vertex_size = 16 then u2 else u2 + 1,
    d.vertex_count, d.data_offset - doff, 0, si⟩, cf, ?_⟩
  rw [write_unk_buffer, hw]
  rfl

theorem writeUnkBuffersGo_total (doff : Nat) :
    ∀ (bs : List UnkBuffer) (c : WCursor) (i si : Nat),
      (∀ b ∈ bs, b.attributes ≠ []) →
      ∃ ds cf, writeUnkBuffersGo doff c bs i si = some (ds, cf)
  | [], c, _, _, _ => ⟨[], c, rfl⟩
  | b :: rest, c, i, si, h => by
    obtain ⟨d, c1, hw⟩ := write_unk_buffer_total c doff i si (h b (List.mem_cons_self _ _))
    obtain ⟨ds, cf, hrec⟩ := writeUnkBuffersGo_total doff rest c1 (i + 1) (si + d.count)
      (fun b2 hb => h b2 (List.mem_cons_of_mem _ hb))
    refine ⟨d :: ds, cf, ?_⟩
    rw [writeUnkBuffersGo, hw]
    dsimp only
    rw [hrec]

theorem write_unk_buffers_total (c : WCursor) {ubs : List UnkBuffer}
    (h : ∀ b ∈ ubs, b.attributes ≠ []) :
    ∃ u cf, write_unk_buffers c ubs = some (u, cf) := by
  obtain ⟨ds, cf, hgo⟩ := writeUnkBuffersGo_total c.pos ubs c 0 0 h
  refine ⟨⟨ds, cf.pos - c.pos, c.pos, List.replicate 8 0⟩, cf, ?_⟩
  rw [write_unk_buffers, hgo]

theorem writeWeightsStage_total (c : WCursor) (vds : List VertexBufferDescriptor) :
    ∀ (ow : Option Weights), (∀ w, ow = some w → w.weight_buffers ≠ []) →
      ∃ vds2 cf, writeWeightsStage c vds ow = some (vds2, cf)
  | none, _ => ⟨vds, c, rfl⟩
  | some w, h => by
    cases hwb : w.weight_buffers with
    | nil => exact absurd hwb (h w rfl)
    | cons wb rest =>
      have hg : w.weight_buffers.get? 0 = some wb := by rw [hwb]; rfl
      obtain ⟨d, c1, hwv⟩ := write_vertex_buffer_total c
        (show ([.SkinWeights wb.weights, .BoneIndices wb.bone_indices] :
          List AttributeData) ≠ [] by simp)
      refine ⟨vds ++ [d], c1, ?_⟩
      rw [writeWeightsStage, hg]
      dsimp only
      rw [hwv]

theorem applyOneMorphInfo_total {acc : List VertexBufferExtInfo}
    {d : MorphDescriptor} (h : d.vertex_buffer_index < acc.length) :
    ∃ acc2, applyOneMorphInfo acc d = some acc2 ∧ acc2.length = acc.length := by
  have hg : acc.get? d.vertex_buffer_index = some (acc.get ⟨_, h⟩) := by
    rw [List.get?_eq_getElem?, List.getElem?_eq_getElem h]
    rfl
  rw [applyOneMorphInfo, hg]
  exact ⟨_, rfl, by rw [List.length_set]⟩

theorem applyMorphInfo_total :
    ∀ (ds : List MorphDescriptor) (infos : List VertexBufferExtInfo),
      (∀ d ∈ ds, d.vertex_buffer_index < infos.length) →
      ∃ infos2, applyMorphInfo infos ds = some infos2
  | [], infos, _ => ⟨infos, rfl⟩
  | d :: rest, infos, h => by
    obtain ⟨acc2, hstep, hlen⟩ := applyOneMorphInfo_total (h d (List.mem_cons_self _ _))
    obtain ⟨infos2, hrec⟩ := applyMorphInfo_total rest acc2
      (fun d2 h2 => hlen ▸ h d2 (List.mem_cons_of_mem _ h2))
    refine ⟨infos2, ?_⟩
    unfold applyMorphInfo at hrec ⊢
    rw [List.foldlM_cons, hstep]
    simpa using hrec

/-- `into_inner` at an in-range position reads the cursor's content
function. -/
theorem WCursor.toBytes_getD (c : WCursor) (q : Nat) (h : q < c.len) :
    c.toBytes.getD q 0 = c.data q := by
  have hlen : q < c.toBytes.length := by
    simpa [WCursor.toBytes] using h
  rw [List.getD_eq_getElem _ _ hlen]
  simp [WCursor.toBytes]

/-- `n` bytes of a buffer starting at `off` (zero-padded out of range). -/
def bytesAt (l : List Byte) (off n : Nat) : List Byte :=
  (List.range n).map fun j => l.getD (off + j) 0

theorem bytesAt_length (l : List Byte) (off n : Nat) : (bytesAt l off n).length = n := by
  simp [bytesAt]

/-- Splitting `enum` at a known element. -/
theorem enum_split {α : Type} {l : List α} {i : Nat} {x : α} (h : l.get? i = some x) :
    List.enum l =
      List.enum (l.take i) ++ (i, x) :: List.enumFrom (i + 1) (l.drop (i + 1)) := by
  obtain ⟨hi, hx⟩ := List.get?_eq_some.mp h
  have htk : (l.take i).length = i := by
    rw [List.length_take]
    omega
  have hdrop : l.drop i = l.get ⟨i, hi⟩ :: l.drop (i + 1) := by
    rw [List.drop_eq_getElem_cons hi]
    rfl
  have hsplit : l = l.take i ++ l.get ⟨i, hi⟩ :: l.drop (i + 1) := by
    conv_lhs => rw [← List.take_append_drop i l, hdrop]
  show List.enumFrom 0 l = List.enumFrom 0 (l.take i) ++ (i, x) ::
    List.enumFrom (i + 1) (l.drop (i + 1))
  conv_lhs => rw [hsplit]
  rw [List.enumFrom_append]
  rw [htk, hx, Nat.zero_add]
  rfl

/-- The union set collects exactly the vertex indices referenced by some
param target of the buffer. -/
theorem mem_morphUnion (a : Nat) (b : VertexBuffer) :
    a ∈ morphUnion b ↔ ∃ mt ∈ b.morph_targets, a ∈ mt.vertex_indices := by
  rw [morphUnion, mem_btreeSetOfList, List.mem_flatten]
  constructor
  · rintro ⟨l, hl, hal⟩
    obtain ⟨mt, hmt, rfl⟩ := List.mem_map.mp hl
    exact ⟨mt, hmt, hal⟩
  · rintro ⟨mt, hmt, ha⟩
    exact ⟨mt.vertex_indices, List.mem_map.mpr ⟨mt, hmt, rfl⟩, ha⟩

theorem bytesAt_eq_of_pointwise {l : List Byte} {off : Nat} {tgt : List Byte}
    (hlen : tgt.length = 32)
    (h : ∀ j, j < 32 → l.getD (off + j) 0 = tgt.getD j 0) :
    bytesAt l off 32 = tgt := by
  apply List.ext_getElem
  · rw [bytesAt_length, hlen]
  · intro j hj1 hj2
    have hj : j < 32 := by rwa [bytesAt_length] at hj1
    have hh := h j hj
    rw [List.getD_eq_getElem _ _ hj2] at hh
    rw [← hh]
    simp [bytesAt]

/-- `write_morph_targets` focussed on the buffer at index `i`: the loop
succeeds, the produced descriptors index existing vertex buffers, and the
descriptor run for buffer `i` has the reconstructed default target in
second position with the blend values at the union's indices laid out in
32-byte slots. -/
theorem write_morph_targets_spec {i : Nat} {b : VertexBuffer}
    {vbs : List VertexBuffer} {pvs : List Vec3B} {nvs tvs : List Vec4Q}
    (hget : vbs.get? i = some b) (hbne : b.morph_targets ≠ [])
    (hok : ∀ b2 ∈ vbs, b2.morph_targets ≠ [] → morphOk b2 = true)
    (hp : findPosition2 b.morph_blend_target = some pvs)
    (hn : findNormal4 b.morph_blend_target = some nvs)
    (ht : findTangent2 b.morph_blend_target = some tvs)
    (hcov : ∀ a ∈ morphUnion b, a < pvs.length ∧ a < nvs.length ∧ a < tvs.length)
    (c : WCursor) :
    ∃ vm cf, write_morph_targets c vbs = some (vm, cf) ∧
      (∀ d ∈ vm.descriptors, d.vertex_buffer_index < vbs.length) ∧
      ∃ t0 off,
        (⟨i, t0, List.range b.morph_targets.length, 3⟩ : MorphDescriptor) ∈
          vm.descriptors ∧
        vm.targets.get? (t0 + 1) =
          some ⟨off, (morphUnion b).length, 32, ⟨0, false, true, false, 0⟩⟩ ∧
        off + 32 * (morphUnion b).length ≤ cf.pos ∧
        (morphUnion b ≠ [] → off + 32 * (morphUnion b).length ≤ cf.len) ∧
        ∀ k, k < (morphUnion b).length → ∀ j, j < 32 →
          cf.data (off + 32 * k + j) =
            (vertexBytes32 (pvs.getD ((morphUnion b).getD k 0) (0, 0, 0))
              (nvs.getD ((morphUnion b).getD k 0) (0, 0, 0, 0))
              (tvs.getD ((morphUnion b).getD k 0) (0, 0, 0, 0))
              ((morphUnion b).getD k 0)).getD j 0 := by
  have hi : i < vbs.length := by
    obtain ⟨hi, _⟩ := List.get?_eq_some.mp hget
    exact hi
  have hpreok : ∀ p ∈ List.enum (vbs.take i),
      p.2.morph_targets ≠ [] → morphOk p.2 = true := fun p hp2 hne =>
    hok p.2 (List.mem_of_mem_take (List.snd_mem_of_mem_enumFrom hp2)) hne
  have hpostok : ∀ p ∈ List.enumFrom (i + 1) (vbs.drop (i + 1)),
      p.2.morph_targets ≠ [] → morphOk p.2 = true := fun p hp2 hne =>
    hok p.2 (List.mem_of_mem_drop (List.snd_mem_of_mem_enumFrom hp2)) hne
  have hpreidx : ∀ p ∈ List.enum (vbs.take i), p.1 < vbs.length := by
    intro p hp2
    have := List.fst_lt_add_of_mem_enumFrom hp2
    have hlt : (vbs.take i).length ≤ vbs.length := by
      rw [List.length_take]
      omega
    omega
  have hpostidx : ∀ p ∈ List.enumFrom (i + 1) (vbs.drop (i + 1)),
      p.1 < vbs.length := by
    intro p hp2
    have := List.fst_lt_add_of_mem_enumFrom hp2
    have hdl : (vbs.drop (i + 1)).length = vbs.length - (i + 1) := by
      rw [List.length_drop]
    omega
  obtain ⟨ds2, ts2, cf, heq, hbound, t0, off, hmem, hts, hpos, hlen, hbytes⟩ :=
    writeMorphTargetsGo_focus vbs.length
      (List.enumFrom (i + 1) (vbs.drop (i + 1))) pvs nvs tvs hpostok hpostidx hi
      hbne hp hn ht hcov (List.enum (vbs.take i)) c [] [] hpreok hpreidx
      (fun d hd => absurd hd (List.not_mem_nil d))
  refine ⟨⟨ds2, ts2, List.replicate 4 0⟩, cf, ?_, hbound, t0, off, hmem, hts,
    hpos, hlen, hbytes⟩
  unfold write_morph_targets
  rw [enum_split hget, heq]

theorem morphUnion_sorted (b : VertexBuffer) : (morphUnion b).Sorted (· < ·) :=
  btreeSetOfList_sorted _

theorem morphUnion_nodup (b : VertexBuffer) : (morphUnion b).Nodup :=
  btreeSetOfList_nodup _

/-- C1: for every `ModelBuffers` whose buffers all write successfully, if
the vertex buffer at index `i` has a non-empty morph target list and its
blend target carries `Position2`, `Normal4` and `Tangent2` attributes
covering every vertex index referenced by its param targets, then
`to_vertex_data` produces a morph section with a descriptor for buffer
`i` whose second target (index `target_start_index + 1`) is the default
target: its vertex count is the size of the ascending duplicate-free
union of the param targets' vertex indices, its stride is 32 with the
default-buffer flag, and each 32-byte slot holds the blend target's
position (3 f32), four zero bytes, normal and tangent as unorm8x4, four
zero bytes and the u32 vertex index, at the union's indices in order. -/
theorem to_vertex_data_default_morph_target (mb : ModelBuffers) (i : Nat)
    (b : VertexBuffer) (pvs : List Vec3B) (nvs tvs : List Vec4Q)
    (hattrs : ∀ b2 ∈ mb.vertex_buffers, b2.attributes ≠ [])
    (hweights : ∀ w, mb.weights = some w → w.weight_buffers ≠ [])
    (houtl : ∀ ob ∈ mb.outline_buffers, ob.attributes ≠ [])
    (hunkb : ∀ ub ∈ mb.unk_buffers, ub.attributes ≠ [])
    (hok : ∀ b2 ∈ mb.vertex_buffers, b2.morph_targets ≠ [] → morphOk b2 = true)
    (hget : mb.vertex_buffers.get? i = some b)
    (hbne : b.morph_targets ≠ [])
    (hp : findPosition2 b.morph_blend_target = some pvs)
    (hn : findNormal4 b.morph_blend_target = some nvs)
    (ht : findTangent2 b.morph_blend_target = some tvs)
    (hcov : ∀ mt ∈ b.morph_targets, ∀ a ∈ mt.vertex_indices,
      a < pvs.length ∧ a < nvs.length ∧ a < tvs.length) :
    ∃ vd vm, to_vertex_data mb = some vd ∧ vd.vertex_morphs = some vm ∧
      ∃ d ∈ vm.descriptors, d.vertex_buffer_index = i ∧
        ∃ t, vm.targets.get? (d.target_start_index + 1) = some t ∧
          t.vertex_count = (morphUnion b).length ∧
          t.vertex_size = 32 ∧
          t.flags = ⟨0, false, true, false, 0⟩ ∧
          (morphUnion b).Sorted (· < ·) ∧
          (morphUnion b).Nodup ∧
          (∀ a, a ∈ morphUnion b ↔ ∃ mt ∈ b.morph_targets, a ∈ mt.vertex_indices) ∧
          ∀ k, k < (morphUnion b).length →
            bytesAt vd.buffer (t.data_offset + 32 * k) 32 =
              vertexBytes32 (pvs.getD ((morphUnion b).getD k 0) (0, 0, 0))
                (nvs.getD ((morphUnion b).getD k 0) (0, 0, 0, 0))
                (tvs.getD ((morphUnion b).getD k 0) (0, 0, 0, 0))
                ((morphUnion b).getD k 0) := by
  have hcov2 : ∀ a ∈ morphUnion b, a < pvs.length ∧ a < nvs.length ∧ a < tvs.length := by
    intro a ha
    obtain ⟨mt, hmt, hamt⟩ := (mem_morphUnion a b).mp ha
    exact hcov mt hmt a hamt
  obtain ⟨vds0, c1, h1⟩ := writeVertexBuffersGo_total mb.vertex_buffers WCursor.empty hattrs
  obtain ⟨vds, c2, h2⟩ := writeWeightsStage_total c1 vds0 mb.weights hweights
  obtain ⟨ods, c3, h3⟩ := writeOutlineBuffersGo_total mb.outline_buffers c2 houtl
  have hany : mb.vertex_buffers.any (fun b2 => !b2.morph_targets.isEmpty) = true := by
    rw [List.any_eq_true]
    refine ⟨b, List.get?_mem hget, ?_⟩
    simpa [List.isEmpty_iff] using hbne
  obtain ⟨vm, cf6, h6, hbound, t0, off, hmem, hts, hpos6, hlen6, hbytes⟩ :=
    write_morph_targets_spec hget hbne hok hp hn ht hcov2
      (alignW (writeIndexBuffersGo c3 mb.index_buffers).2 256)
  have hk7 : Keeps (off + 32 * (morphUnion b).length) cf6 (alignW cf6 256) :=
    keeps_alignW hpos6
  obtain ⟨unk7v, c8, h8, k8⟩ : ∃ unk7v c8,
      (if mb.unk_buffers.isEmpty then some (none, alignW cf6 256) else
        (write_unk_buffers (alignW cf6 256) mb.unk_buffers).map fun r =>
          (some r.1, r.2)) = some (unk7v, c8) ∧
      Keeps (off + 32 * (morphUnion b).length) (alignW cf6 256) c8 := by
    by_cases hue : mb.unk_buffers.isEmpty
    · exact ⟨none, alignW cf6 256, by rw [if_pos hue], keeps_refl hk7.1⟩
    · obtain ⟨u, cf8, hu⟩ := write_unk_buffers_total (alignW cf6 256) hunkb
      refine ⟨some u, cf8, ?_, keeps_write_unk_buffers hu hk7.1⟩
      rw [if_neg hue, hu]
      rfl
  have hk9 : Keeps (off + 32 * (morphUnion b).length) c8 (alignW c8 4096) :=
    keeps_alignW k8.1
  have hbound2 : ∀ d ∈ vm.descriptors,
      d.vertex_buffer_index < (mb.vertex_buffers.map vertexBufferInfoBase).length := by
    intro d hd
    rw [List.length_map]
    exact hbound d hd
  obtain ⟨infos, happly⟩ := applyMorphInfo_total vm.descriptors
    (mb.vertex_buffers.map vertexBufferInfoBase) hbound2
  have heqfull : to_vertex_data mb = some
      ⟨vds, (writeIndexBuffersGo c3 mb.index_buffers).1, 0, 0, 0, infos, ods,
        some vm, (alignW c8 4096).toBytes, none, libWeightsOf vds.length mb.weights,
        unk7v, List.replicate 5 0⟩ := by
    unfold to_vertex_data
    rw [h1]
    dsimp only
    rw [h2]
    dsimp only
    rw [h3]
    dsimp only
    rw [if_pos hany, h6, Option.map_some']
    dsimp only
    rw [h8]
    dsimp only
    rw [happly]
  refine ⟨_, vm, heqfull, rfl,
    ⟨i, t0, List.range b.morph_targets.length, 3⟩, hmem, rfl,
    ⟨off, (morphUnion b).length, 32, ⟨0, false, true, false, 0⟩⟩, hts, rfl, rfl, rfl,
    morphUnion_sorted b, morphUnion_nodup b, fun a => mem_morphUnion a b, ?_⟩
  intro k hk
  have hUne : morphUnion b ≠ [] := by
    intro hnil
    rw [hnil] at hk
    simp at hk
  have hlenB : off + 32 * (morphUnion b).length ≤ (alignW c8 4096).len :=
    le_trans (hlen6 hUne) (le_trans hk7.2.1 (le_trans k8.2.1 hk9.2.1))
  dsimp only
  apply bytesAt_eq_of_pointwise (vertexBytes32_length _ _ _ _)
  intro j hj
  have hq : off + 32 * k + j < off + 32 * (morphUnion b).length := by omega
  have hqlen : off + 32 * k + j < (alignW c8 4096).len := by omega
  rw [WCursor.toBytes_getD _ _ hqlen]
  rw [hk9.2.2 _ hq, k8.2.2 _ hq, hk7.2.2 _ hq]
  exact hbytes k hk j hj

/-- A one-buffer model with a single morph target touching vertex 0, used
to instantiate the default-target reconstruction theorem. -/
def bW : VertexBuffer :=
  ⟨[.Position [(0, 0, 0)]],
    [.Position2 [(0, 0, 0)], .Normal4 [(0, 0, 0, 0)], .Tangent2 [(0, 0, 0, 0)]],
    [⟨0, [(0, 0, 0)], [(0, 0, 0, 0)], [(0, 0, 0, 0)], [0]⟩], none⟩

def mbW : ModelBuffers := ⟨[bW], [], [], [], none⟩

theorem to_vertex_data_default_morph_target_witness :
    ∃ vd vm, to_vertex_data mbW = some vd ∧ vd.vertex_morphs = some vm ∧
      ∃ d ∈ vm.descriptors, d.vertex_buffer_index = 0 ∧
        ∃ t, vm.targets.get? (d.target_start_index + 1) = some t ∧
          t.vertex_count = (morphUnion bW).length ∧
          t.vertex_size = 32 ∧
          t.flags = ⟨0, false, true, false, 0⟩ ∧
          (morphUnion bW).Sorted (· < ·) ∧
          (morphUnion bW).Nodup ∧
          (∀ a, a ∈ morphUnion bW ↔ ∃ mt ∈ bW.morph_targets, a ∈ mt.vertex_indices) ∧
          ∀ k, k < (morphUnion bW).length →
            bytesAt vd.buffer (t.data_offset + 32 * k) 32 =
              vertexBytes32
                (([(0, 0, 0)] : List Vec3B).getD ((morphUnion bW).getD k 0) (0, 0, 0))
                (([(0, 0, 0, 0)] : List Vec4Q).getD ((morphUnion bW).getD k 0) (0, 0, 0, 0))
                (([(0, 0, 0, 0)] : List Vec4Q).getD ((morphUnion bW).getD k 0) (0, 0, 0, 0))
                ((morphUnion bW).getD k 0) :=
  to_vertex_data_default_morph_target mbW 0 bW [(0, 0, 0)] [(0, 0, 0, 0)] [(0, 0, 0, 0)]
    (by decide) (fun w h => nomatch h) (by decide) (by decide) (by decide) rfl
    (by decide) rfl rfl rfl (by decide)

end Xc3
